import Mathlib

/-!
Verification of the math-problem web application's core logic:
the AI-response normalization pipeline of the problem-generation route
(`/api/math-problem`) and the answer-evaluation / star-reward logic of the
submission route (`/api/math-problem/submit`).

JavaScript values produced by `JSON.parse` are modelled by the inductive
type `Json` (numbers in unnormalized scientific form); the parsing pipeline of
`handleGenerateProblem` (direct `JSON.parse`, code-fence stripping,
first-`{`-to-last-`}` substring extraction, retry parse, hardcoded
fallback problem) is translated into executable Lean functions on
character lists.
-/

/-- JavaScript value resulting from `JSON.parse`.  A number is kept in
unnormalized scientific form `mantissa × 10 ^ exponent` exactly as read
from the digits of its token, so that number values stay computable by
the kernel; an integer literal `n` is represented as `num n 0`. -/
inductive Json where
  | null : Json
  | bool (b : Bool) : Json
  | num (m : Int) (e : Int) : Json
  | str (s : String) : Json
  | arr (items : List Json) : Json
  | obj (fields : List (String × Json)) : Json
deriving Repr

/-- JSON whitespace characters (RFC 8259: space, tab, line feed, carriage return). -/
def isJsonWs (c : Char) : Bool :=
  c = ' ' || c = '\t' || c = '\n' || c = '\r'

/-- Whitespace recognized by JavaScript's `\s` regex class and `String.trim`
(ASCII portion: JSON whitespace plus vertical tab and form feed). -/
def isJsWs (c : Char) : Bool :=
  isJsonWs c || c = Char.ofNat 11 || c = Char.ofNat 12

/-- Drop leading JSON whitespace. -/
def skipWs (cs : List Char) : List Char :=
  cs.dropWhile isJsonWs

/-- ASCII decimal digit. -/
def isDigitC (c : Char) : Bool :=
  '0' ≤ c && c ≤ '9'

/-- ASCII hexadecimal digit. -/
def isHexC (c : Char) : Bool :=
  isDigitC c || ('a' ≤ c && c ≤ 'f') || ('A' ≤ c && c ≤ 'F')

/-- Numeric value of a hexadecimal digit. -/
def hexVal (c : Char) : Nat :=
  if isDigitC c then c.toNat - 48
  else if 'a' ≤ c && c ≤ 'f' then c.toNat - 87
  else c.toNat - 55

/-- Value of a run of decimal digits. -/
def digitsToNat (ds : List Char) : Nat :=
  ds.foldl (fun n c => 10 * n + (c.toNat - 48)) 0

/-- Single-character JSON string escapes. -/
def escChar : Char → Option Char
  | '"' => some '"'
  | '\\' => some '\\'
  | '/' => some '/'
  | 'b' => some (Char.ofNat 8)
  | 'f' => some (Char.ofNat 12)
  | 'n' => some '\n'
  | 'r' => some '\r'
  | 't' => some '\t'
  | _ => none

/-- Parse the body of a JSON string literal (after the opening quote),
returning the decoded characters and the input remaining after the
closing quote. -/
def parseStringChars : List Char → Option (List Char × List Char)
  | [] => none
  | c :: rest =>
    if c = '"' then some ([], rest)
    else if c = '\\' then
      match rest with
      | [] => none
      | e :: rest2 =>
        if e = 'u' then
          match rest2 with
          | h1 :: h2 :: h3 :: h4 :: rest3 =>
            if isHexC h1 && isHexC h2 && isHexC h3 && isHexC h4 then
              (parseStringChars rest3).map (fun p =>
                (Char.ofNat (hexVal h1 * 4096 + hexVal h2 * 256 + hexVal h3 * 16 + hexVal h4) :: p.1, p.2))
            else none
          | _ => none
        else
          match escChar e with
          | some ec => (parseStringChars rest2).map (fun p => (ec :: p.1, p.2))
          | none => none
    else if c.toNat < 32 then none
    else (parseStringChars rest).map (fun p => (c :: p.1, p.2))

/-- Integer part of a JSON number: a single `0` or a nonzero digit
followed by digits. -/
def parseIntPart : List Char → Option (Nat × List Char)
  | [] => none
  | c :: rest =>
    if c = '0' then some (0, rest)
    else if isDigitC c then
      some (digitsToNat (c :: rest.takeWhile isDigitC), rest.dropWhile isDigitC)
    else none

/-- Optional fraction part of a JSON number: value of the fraction digits
and their count. -/
def parseFrac : List Char → Option (Nat × Nat × List Char)
  | [] => some (0, 0, [])
  | c :: r =>
    if c = '.' then
      let ds := r.takeWhile isDigitC
      if ds.isEmpty then none
      else some (digitsToNat ds, ds.length, r.dropWhile isDigitC)
    else some (0, 0, c :: r)

/-- Optional exponent part of a JSON number. -/
def parseExp : List Char → Option (Int × List Char)
  | [] => some (0, [])
  | c :: r =>
    if c = 'e' || c = 'E' then
      let (sgn, r1) :=
        match r with
        | [] => ((1 : Int), ([] : List Char))
        | c2 :: t =>
          if c2 = '+' then ((1 : Int), t)
          else if c2 = '-' then ((-1 : Int), t)
          else ((1 : Int), c2 :: t)
      let ds := r1.takeWhile isDigitC
      if ds.isEmpty then none
      else some (sgn * (digitsToNat ds : Int), r1.dropWhile isDigitC)
    else some (0, c :: r)

/-- Parse a JSON number token into `mantissa × 10 ^ exponent` form. -/
def parseNumber (cs : List Char) : Option (Json × List Char) :=
  let (neg, cs1) :=
    match cs with
    | [] => (false, ([] : List Char))
    | c :: t => if c = '-' then (true, t) else (false, c :: t)
  match parseIntPart cs1 with
  | none => none
  | some (ip, r1) =>
    match parseFrac r1 with
    | none => none
    | some (fv, fd, r2) =>
      match parseExp r2 with
      | none => none
      | some (e, r3) =>
        let m : Nat := ip * 10 ^ fd + fv
        some (Json.num (if neg then -(m : Int) else (m : Int)) (e - (fd : Int)), r3)

/-- Characters that can occur in a JSON number token. -/
def isNumTokChar (c : Char) : Bool :=
  isDigitC c || c = '-' || c = '+' || c = '.' || c = 'e' || c = 'E'

/-- Boolean list-prefix test. -/
def litPrefix : List Char → List Char → Bool
  | [], _ => true
  | _ :: _, [] => false
  | a :: as, b :: bs => a = b && litPrefix as bs

/-- Consume an expected literal continuation (`rue`, `alse`, `ull`). -/
def expectLit (lit : List Char) (cs : List Char) (v : Json) : Option (Json × List Char) :=
  if litPrefix lit cs then some (v, cs.drop lit.length) else none

mutual

/-- Parse a JSON value at the head of the input (fuel-indexed). -/
def parseValue : Nat → List Char → Option (Json × List Char)
  | 0, _ => none
  | Nat.succ f, cs =>
    match cs with
    | [] => none
    | c :: rest =>
      if c = '{' then parseObjectBody f (skipWs rest)
      else if c = '[' then parseArrayBody f (skipWs rest)
      else if c = '"' then (parseStringChars rest).map (fun p => (Json.str (String.mk p.1), p.2))
      else if c = 't' then expectLit ['r', 'u', 'e'] rest (Json.bool true)
      else if c = 'f' then expectLit ['a', 'l', 's', 'e'] rest (Json.bool false)
      else if c = 'n' then expectLit ['u', 'l', 'l'] rest Json.null
      else if c = '-' || isDigitC c then parseNumber (c :: rest)
      else none

/-- Parse one `"key": value` member of a JSON object. -/
def parseMember : Nat → List Char → Option ((String × Json) × List Char)
  | 0, _ => none
  | Nat.succ f, cs =>
    match cs with
    | [] => none
    | c :: rest =>
      if c = '"' then
        match parseStringChars rest with
        | none => none
        | some (key, r1) =>
          match skipWs r1 with
          | [] => none
          | c2 :: r2 =>
            if c2 = ':' then
              match parseValue f (skipWs r2) with
              | none => none
              | some (v, r3) => some ((String.mk key, v), r3)
            else none
      else none

/-- Parse the members of a JSON object after at least one member is known
to be present, accumulating parsed members. -/
def parseMembers : Nat → List Char → List (String × Json) → Option (Json × List Char)
  | 0, _, _ => none
  | Nat.succ f, cs, acc =>
    match parseMember f cs with
    | none => none
    | some (kv, r3) =>
      match skipWs r3 with
      | [] => none
      | c2 :: r4 =>
        if c2 = ',' then parseMembers f (skipWs r4) (acc ++ [kv])
        else if c2 = '}' then some (Json.obj (acc ++ [kv]), r4)
        else none

/-- Parse a JSON object after the opening brace (input already
whitespace-skipped). -/
def parseObjectBody : Nat → List Char → Option (Json × List Char)
  | 0, _ => none
  | Nat.succ f, cs =>
    match cs with
    | [] => none
    | c :: rest =>
      if c = '}' then some (Json.obj [], rest)
      else parseMembers f (c :: rest) []

/-- Parse the items of a JSON array after at least one item is known to be
present, accumulating parsed items. -/
def parseItems : Nat → List Char → List Json → Option (Json × List Char)
  | 0, _, _ => none
  | Nat.succ f, cs, acc =>
    match parseValue f cs with
    | none => none
    | some (v, r) =>
      match skipWs r with
      | [] => none
      | c2 :: r2 =>
        if c2 = ',' then parseItems f (skipWs r2) (acc ++ [v])
        else if c2 = ']' then some (Json.arr (acc ++ [v]), r2)
        else none

/-- Parse a JSON array after the opening bracket (input already
whitespace-skipped). -/
def parseArrayBody : Nat → List Char → Option (Json × List Char)
  | 0, _ => none
  | Nat.succ f, cs =>
    match cs with
    | [] => none
    | c :: rest =>
      if c = ']' then some (Json.arr [], rest)
      else parseItems f (c :: rest) []

end

/-- `JSON.parse` on a character list: a single JSON value surrounded only
by whitespace; anything else is a parse error (`none`).  The fuel
`3 * length + 4` always suffices: along any chain of recursive calls the
parser spends at most three fuel units per input character it consumes.
The worst case is an array bracket, whose single character pays for the
three levels `parseValue` to `parseArrayBody` to `parseItems`; an object
level spends four units (`parseValue`, `parseObjectBody`, `parseMembers`,
`parseMember`) but consumes at least the four characters of an opening
brace, two key quotes and a colon, and each further member or item spends
one unit while consuming at least its comma. -/
def jsonParseL (cs : List Char) : Option Json :=
  match parseValue (3 * cs.length + 4) (skipWs cs) with
  | some (v, rest) => if skipWs rest = [] then some v else none
  | none => none

/-- `JSON.parse` on a string. -/
def jsonParse (s : String) : Option Json :=
  jsonParseL s.toList

/-- JavaScript property access `v.key` on a parsed value: defined fields of
an object (with later duplicate keys overriding earlier ones, as in
`JSON.parse`); `none` models `undefined`. -/
def jsGet : Json → String → Option Json
  | Json.obj fields, k => (fields.reverse.find? (fun kv => kv.1 == k)).map (fun kv => kv.2)
  | _, _ => none

/-- JavaScript truthiness of a parsed value. -/
def truthy : Json → Bool
  | Json.null => false
  | Json.bool b => b
  | Json.num m _ => m != 0
  | Json.str s => s != ""
  | Json.arr _ => true
  | Json.obj _ => true

/-- Truthiness of a possibly-undefined value (`undefined` is falsy). -/
def truthyOpt : Option Json → Bool
  | some v => truthy v
  | none => false

/-- JavaScript `typeof v === 'number'` on a possibly-undefined value. -/
def isNumOpt : Option Json → Bool
  | some (Json.num _ _) => true
  | _ => false

/-- Whether a possibly-undefined value is a string. -/
def isStrOpt : Option Json → Bool
  | some (Json.str _) => true
  | _ => false

/-- Drop leading JavaScript whitespace. -/
def jsTrimL (cs : List Char) : List Char :=
  cs.dropWhile isJsWs

/-- Drop trailing JavaScript whitespace. -/
def jsTrimR (cs : List Char) : List Char :=
  (cs.reverse.dropWhile isJsWs).reverse

/-- JavaScript `String.prototype.trim`. -/
def jsTrim (cs : List Char) : List Char :=
  jsTrimR (jsTrimL cs)

/-- The characters of the opening marker `` ```json ``. -/
def fenceJson : List Char := ['`', '`', '`', 'j', 's', 'o', 'n']

/-- The characters of a bare code fence `` ``` ``. -/
def fenceTicks : List Char := ['`', '`', '`']

/-- One global-replace pass of the JavaScript regex
`/MARKER\s*|\s*```/g` with replacement `''`: at each position the first
alternative (the marker followed by greedy whitespace) is tried first,
then the second (a maximal whitespace run followed by `` ``` ``); on a
match scanning resumes after the consumed text, otherwise the character
is kept.  Fuel-indexed; fuel `cs.length` always suffices. -/
def stripFencesAux (marker : List Char) : Nat → List Char → List Char
  | 0, _ => []
  | Nat.succ f, cs =>
    if litPrefix marker cs then
      stripFencesAux marker f ((cs.drop marker.length).dropWhile isJsWs)
    else if litPrefix fenceTicks cs then
      stripFencesAux marker f (cs.drop 3)
    else
      match cs with
      | [] => []
      | c :: rest =>
        if isJsWs c && litPrefix fenceTicks (rest.dropWhile isJsWs) then
          stripFencesAux marker f ((rest.dropWhile isJsWs).drop 3)
        else c :: stripFencesAux marker f rest

/-- The JavaScript regex match `/\{[\s\S]*\}/`: the substring from the
first `{` to the last `}`, when the latter occurs after the former. -/
def extractBraces (cs : List Char) : Option (List Char) :=
  match cs.dropWhile (fun c => c != '{') with
  | [] => none
  | _ :: rest =>
    let r2 := rest.reverse.dropWhile (fun c => c != '}')
    if r2.isEmpty then none else some ('{' :: r2.reverse)

/-- The cleanup the generation route applies before its retry parse:
trim, strip markdown code-fence markers when the trimmed text starts
with one, then replace the text by its first-`{`-to-last-`}` substring
when such a substring exists. -/
def cleanJsonText (s : String) : String :=
  let t := jsTrim s.toList
  let t2 :=
    if litPrefix fenceJson t then stripFencesAux fenceJson t.length t
    else if litPrefix fenceTicks t then stripFencesAux fenceTicks t.length t
    else t
  match extractBraces t2 with
  | some sub => String.mk sub
  | none => String.mk t2

/-- The hardcoded fallback problem substituted when every parsing
strategy fails. -/
def fallbackProblem : Json :=
  Json.obj [("problem_text",
    Json.str "Sarah has 25 apples. She gives 10 apples to her friend. How many apples does Sarah have left?"),
    ("final_answer", Json.num 15 0)]

/-- The two parsing strategies of the generation route, without the
fallback: direct `JSON.parse`, then `JSON.parse` of the cleaned text. -/
def parseStages (text : String) : Option Json :=
  match jsonParse text with
  | some v => some v
  | none => jsonParse (cleanJsonText text)

/-- The AI-response normalizer: parse by any strategy, substituting the
hardcoded fallback problem when both strategies fail. -/
def parseAIResponse (text : String) : Json :=
  (parseStages text).getD fallbackProblem

/-- Difficulty levels accepted by the generation route. -/
inductive Difficulty where
  | easy
  | medium
  | hard
deriving DecidableEq, Repr

/-- Topics accepted by the generation route. -/
inductive Topic where
  | addition
  | subtraction
  | multiplication
  | division
  | random
deriving DecidableEq, Repr

/-- Row inserted into `math_problem_sessions` by the generation route. -/
structure GenSessionRow where
  problem_text : String
  correct_answer : Json
  hint : Option Json
  difficulty : Difficulty
  topic : Topic
deriving Repr

/-- Observable outcome of `handleGenerateProblem`: HTTP status, the
session row inserted (if any), and the problem returned to the client
(text, answer, optional hint). -/
structure GenOutcome where
  status : Nat
  inserted : Option GenSessionRow
  responseProblem : Option (String × Json × Option Json)
deriving Repr

/-- `handleGenerateProblem` of the generation route, from the raw AI
response text onward: normalize the text, validate that `problem_text`
is truthy and `final_answer` is a number (else throw, surfaced as 500
with nothing persisted), then read `problem_text.substring(0, 50)`
(which throws for a truthy non-string), insert the session row (a
database failure `dbFails` throws, surfaced as 500), and reply 201. -/
def handleGenerateProblem (text : String) (difficulty : Difficulty) (topic : Topic)
    (dbFails : Bool) : GenOutcome :=
  let parsed := parseAIResponse text
  let pt := jsGet parsed "problem_text"
  let ans := jsGet parsed "final_answer"
  if !truthyOpt pt || !isNumOpt ans then
    { status := 500, inserted := none, responseProblem := none }
  else
    match pt with
    | some (Json.str ptext) =>
      if dbFails then { status := 500, inserted := none, responseProblem := none }
      else
        { status := 201
          inserted := some
            { problem_text := ptext
              correct_answer := (ans.getD Json.null)
              hint :=
                match jsGet parsed "hint" with
                | some h => if truthy h then some h else none
                | none => none
              difficulty := difficulty
              topic := topic }
          responseProblem := some (ptext, ans.getD Json.null, jsGet parsed "hint") }
    | _ => { status := 500, inserted := none, responseProblem := none }

/-- Row of `math_problem_sessions` as read by the submission route. -/
structure SessionRow where
  id : String
  problem_text : String
  correct_answer : Int
  difficulty : Option Difficulty
deriving Repr

/-- Row inserted into `math_problem_submissions`. -/
structure SubmissionRow where
  session_id : String
  user_answer : Int
  is_correct : Bool
  feedback_text : String
  time_taken_seconds : Option Int
  stars_earned : Nat
deriving Repr

/-- Request body of the submission route.  `userAnswer = none` models a
missing or non-numeric `userAnswer`; `sessionId = none` a missing
`sessionId`. -/
structure SubmitBody where
  sessionId : Option String
  userAnswer : Option Int
  timeTakenSeconds : Option Int
deriving Repr

/-- Observable outcome of the submission route: HTTP status, whether the
session was looked up in the database, whether the AI feedback call was
made, whether a submission insert was attempted, the row inserted (if
the insert succeeded), and the response fields. -/
structure SubmitOutcome where
  status : Nat
  sessionLookedUp : Bool
  aiCalled : Bool
  insertAttempted : Bool
  inserted : Option SubmissionRow
  respIsCorrect : Option Bool
  respFeedback : Option String
deriving Repr

/-- Star thresholds per difficulty: below the first → 3 stars, below the
second → 2 stars, otherwise 1 star. -/
def starThresholds : Difficulty → Int × Int
  | Difficulty.easy => (30, 60)
  | Difficulty.medium => (60, 120)
  | Difficulty.hard => (120, 180)

/-- Star computation of the submission route: only a correct answer with
a supplied elapsed time earns stars; a missing difficulty defaults to
`medium`. -/
def computeStars (isCorrect : Bool) (difficulty : Option Difficulty)
    (t : Option Int) : Nat :=
  match isCorrect, t with
  | true, some seconds =>
    let th := starThresholds (difficulty.getD Difficulty.medium)
    if seconds < th.1 then 3 else if seconds < th.2 then 2 else 1
  | _, _ => 0

/-- `POST /api/math-problem/submit`: validate the body (400), look up the
session by id (404 when absent), compare the answer exactly, compute
stars, call the AI for feedback, insert the submission row with the
falsy-coalesced elapsed time (`timeTakenSeconds || null`), ignore an
insert failure, and reply 201 with correctness and feedback. -/
def submitPOST (db : List SessionRow) (body : SubmitBody) (aiFeedback : String)
    (insertFails : Bool) : SubmitOutcome :=
  match body.sessionId, body.userAnswer with
  | some sid, some ans =>
    if sid = "" then
      { status := 400, sessionLookedUp := false, aiCalled := false
        insertAttempted := false, inserted := none
        respIsCorrect := none, respFeedback := none }
    else
      match db.find? (fun s => s.id == sid) with
      | none =>
        { status := 404, sessionLookedUp := true, aiCalled := false
          insertAttempted := false, inserted := none
          respIsCorrect := none, respFeedback := none }
      | some session =>
        let isCorrect : Bool := ans == session.correct_answer
        let starsEarned := computeStars isCorrect session.difficulty body.timeTakenSeconds
        let feedbackText := aiFeedback.trim
        let row : SubmissionRow :=
          { session_id := sid
            user_answer := ans
            is_correct := isCorrect
            feedback_text := feedbackText
            time_taken_seconds :=
              match body.timeTakenSeconds with
              | some v => if v = 0 then none else some v
              | none => none
            stars_earned := starsEarned }
        { status := 201, sessionLookedUp := true, aiCalled := true
          insertAttempted := true
          inserted := if insertFails then none else some row
          respIsCorrect := some isCorrect, respFeedback := some feedbackText }
  | _, _ =>
    { status := 400, sessionLookedUp := false, aiCalled := false
      insertAttempted := false, inserted := none
      respIsCorrect := none, respFeedback := none }


/-! ### Helper lemmas about the submission route -/

/-- The 400 outcome record. -/
def badRequestOutcome : SubmitOutcome :=
  { status := 400, sessionLookedUp := false, aiCalled := false
    insertAttempted := false, inserted := none
    respIsCorrect := none, respFeedback := none }

/-- The 404 outcome record. -/
def notFoundOutcome : SubmitOutcome :=
  { status := 404, sessionLookedUp := true, aiCalled := false
    insertAttempted := false, inserted := none
    respIsCorrect := none, respFeedback := none }

/-- Outcome of the submission route when the body is valid and the
session is found. -/
theorem submitPOST_found (db : List SessionRow) (sid : String) (s : SessionRow)
    (a : Int) (t : Option Int) (fb : String) (ifail : Bool)
    (hsid : sid ≠ "") (hfind : db.find? (fun r => r.id == sid) = some s) :
    submitPOST db ⟨some sid, some a, t⟩ fb ifail =
      { status := 201, sessionLookedUp := true, aiCalled := true
        insertAttempted := true
        inserted :=
          if ifail then none else some
            { session_id := sid
              user_answer := a
              is_correct := (a == s.correct_answer)
              feedback_text := fb.trim
              time_taken_seconds :=
                match t with
                | some v => if v = 0 then none else some v
                | none => none
              stars_earned := computeStars (a == s.correct_answer) s.difficulty t }
        respIsCorrect := some (a == s.correct_answer)
        respFeedback := some fb.trim } := by
  simp only [submitPOST, hfind, if_neg hsid]

/-- Outcome of the submission route when the session id is unknown. -/
theorem submitPOST_notFound (db : List SessionRow) (sid : String)
    (a : Int) (t : Option Int) (fb : String) (ifail : Bool)
    (hsid : sid ≠ "") (hfind : db.find? (fun r => r.id == sid) = none) :
    submitPOST db ⟨some sid, some a, t⟩ fb ifail = notFoundOutcome := by
  simp only [submitPOST, hfind, if_neg hsid]
  rfl

/-- Outcome of the submission route when the body fails validation. -/
theorem submitPOST_badBody (db : List SessionRow) (body : SubmitBody)
    (fb : String) (ifail : Bool)
    (h : body.userAnswer = none ∨ body.sessionId = none ∨ body.sessionId = some "") :
    submitPOST db body fb ifail = badRequestOutcome := by
  obtain ⟨sid, ans, t⟩ := body
  simp only at h
  rcases h with h | h | h
  · subst h
    cases sid <;> simp [submitPOST, badRequestOutcome]
  · subst h
    cases ans <;> simp [submitPOST, badRequestOutcome]
  · subst h
    cases ans <;> simp [submitPOST, badRequestOutcome]

/-- Stars are always at most 3. -/
theorem computeStars_le_three (c : Bool) (d : Option Difficulty) (t : Option Int) :
    computeStars c d t ≤ 3 := by
  unfold computeStars
  split
  · simp only []
    split
    · omega
    · split <;> omega
  · omega

/-- An incorrect answer earns no stars. -/
theorem computeStars_incorrect (d : Option Difficulty) (t : Option Int) :
    computeStars false d t = 0 := by
  unfold computeStars
  cases t <;> rfl

/-- A missing elapsed time earns no stars. -/
theorem computeStars_no_time (c : Bool) (d : Option Difficulty) :
    computeStars c d none = 0 := by
  unfold computeStars
  cases c <;> rfl

/-! ### Claims about the submission route -/

/-- C1: For every integer submitted answer `a` and every stored session
with correct answer `c`, the submission endpoint's `isCorrect` result is
`true` exactly when `a` equals `c` (exact integer equality, no
tolerance), and `false` for any different integer. -/
theorem claim_C1_exact_integer_equality
    (db : List SessionRow) (sid : String) (hsid : sid ≠ "")
    (s : SessionRow) (hfind : db.find? (fun r => r.id == sid) = some s)
    (a : Int) (t : Option Int) (fb : String) (ifail : Bool) :
    ((submitPOST db ⟨some sid, some a, t⟩ fb ifail).respIsCorrect = some true ↔
      a = s.correct_answer) ∧
    (a ≠ s.correct_answer →
      (submitPOST db ⟨some sid, some a, t⟩ fb ifail).respIsCorrect = some false) := by
  rw [submitPOST_found db sid s a t fb ifail hsid hfind]
  constructor
  · simp
  · intro hne
    simp [hne]

/-- Witness for C1 at a concrete database, one equal and one different
answer. -/
theorem claim_C1_exact_integer_equality_witness :
    (((submitPOST [⟨"s1", "P", 15, some Difficulty.medium⟩]
        ⟨some "s1", some 15, none⟩ "good" false).respIsCorrect = some true ↔
      (15 : Int) = 15) ∧
    ((15 : Int) ≠ 15 →
      (submitPOST [⟨"s1", "P", 15, some Difficulty.medium⟩]
        ⟨some "s1", some 15, none⟩ "good" false).respIsCorrect = some false)) ∧
    (((submitPOST [⟨"s1", "P", 15, some Difficulty.medium⟩]
        ⟨some "s1", some 14, none⟩ "good" false).respIsCorrect = some true ↔
      (14 : Int) = 15) ∧
    ((14 : Int) ≠ 15 →
      (submitPOST [⟨"s1", "P", 15, some Difficulty.medium⟩]
        ⟨some "s1", some 14, none⟩ "good" false).respIsCorrect = some false)) := by
  constructor
  · exact claim_C1_exact_integer_equality [⟨"s1", "P", 15, some Difficulty.medium⟩]
      "s1" (by decide) ⟨"s1", "P", 15, some Difficulty.medium⟩ rfl 15 none "good" false
  · exact claim_C1_exact_integer_equality [⟨"s1", "P", 15, some Difficulty.medium⟩]
      "s1" (by decide) ⟨"s1", "P", 15, some Difficulty.medium⟩ rfl 14 none "good" false

/-- C2: For every correct submission that supplies an elapsed time, the
stars awarded are 3 when the elapsed seconds are below the difficulty's
first threshold, 2 when below the second, and 1 otherwise, with
thresholds easy 30/60, medium 60/120, hard 120/180; in particular for
difficulty medium, 59s yields 3 stars, 61s yields 2 stars, 121s yields
1 star; and a correct submission with no elapsed time yields 0 stars. -/
theorem claim_C2_star_thresholds
    (db : List SessionRow) (sid : String) (hsid : sid ≠ "")
    (s : SessionRow) (hfind : db.find? (fun r => r.id == sid) = some s)
    (d : Difficulty) (hd : s.difficulty = some d) (fb : String) :
    (∀ secs : Int, ∃ r,
      (submitPOST db ⟨some sid, some s.correct_answer, some secs⟩ fb false).inserted = some r ∧
      r.stars_earned =
        (if secs < (starThresholds d).1 then 3
         else if secs < (starThresholds d).2 then 2 else 1)) ∧
    starThresholds Difficulty.easy = (30, 60) ∧
    starThresholds Difficulty.medium = (60, 120) ∧
    starThresholds Difficulty.hard = (120, 180) ∧
    (d = Difficulty.medium →
      ((submitPOST db ⟨some sid, some s.correct_answer, some 59⟩ fb false).inserted.map
          (fun r => r.stars_earned) = some 3 ∧
       (submitPOST db ⟨some sid, some s.correct_answer, some 61⟩ fb false).inserted.map
          (fun r => r.stars_earned) = some 2 ∧
       (submitPOST db ⟨some sid, some s.correct_answer, some 121⟩ fb false).inserted.map
          (fun r => r.stars_earned) = some 1)) ∧
    (submitPOST db ⟨some sid, some s.correct_answer, none⟩ fb false).inserted.map
        (fun r => r.stars_earned) = some 0 := by
  have hstars : ∀ t : Option Int,
      computeStars (s.correct_answer == s.correct_answer) s.difficulty t =
        computeStars true (some d) t := by
    intro t
    rw [hd, beq_self_eq_true]
  refine ⟨?_, rfl, rfl, rfl, ?_, ?_⟩
  · intro secs
    rw [submitPOST_found db sid s s.correct_answer (some secs) fb false hsid hfind]
    refine ⟨_, rfl, ?_⟩
    rw [hstars]
    simp only [computeStars, Option.getD_some]
  · intro hm
    subst hm
    refine ⟨?_, ?_, ?_⟩ <;>
      rw [submitPOST_found db sid s s.correct_answer _ fb false hsid hfind] <;>
      simp only [if_neg Bool.false_ne_true, Option.map_some, hstars] <;> rfl
  · rw [submitPOST_found db sid s s.correct_answer none fb false hsid hfind]
    simp [computeStars_no_time]

/-- Witness for C2 at a concrete medium-difficulty session. -/
theorem claim_C2_star_thresholds_witness :
    (∀ secs : Int, ∃ r,
      (submitPOST [⟨"s1", "P", 7, some Difficulty.medium⟩]
        ⟨some "s1", some 7, some secs⟩ "fb" false).inserted = some r ∧
      r.stars_earned =
        (if secs < (starThresholds Difficulty.medium).1 then 3
         else if secs < (starThresholds Difficulty.medium).2 then 2 else 1)) ∧
    starThresholds Difficulty.easy = (30, 60) ∧
    starThresholds Difficulty.medium = (60, 120) ∧
    starThresholds Difficulty.hard = (120, 180) ∧
    (Difficulty.medium = Difficulty.medium →
      ((submitPOST [⟨"s1", "P", 7, some Difficulty.medium⟩]
          ⟨some "s1", some 7, some 59⟩ "fb" false).inserted.map
          (fun r => r.stars_earned) = some 3 ∧
       (submitPOST [⟨"s1", "P", 7, some Difficulty.medium⟩]
          ⟨some "s1", some 7, some 61⟩ "fb" false).inserted.map
          (fun r => r.stars_earned) = some 2 ∧
       (submitPOST [⟨"s1", "P", 7, some Difficulty.medium⟩]
          ⟨some "s1", some 7, some 121⟩ "fb" false).inserted.map
          (fun r => r.stars_earned) = some 1)) ∧
    (submitPOST [⟨"s1", "P", 7, some Difficulty.medium⟩]
        ⟨some "s1", some 7, none⟩ "fb" false).inserted.map
        (fun r => r.stars_earned) = some 0 :=
  claim_C2_star_thresholds [⟨"s1", "P", 7, some Difficulty.medium⟩] "s1" (by decide)
    ⟨"s1", "P", 7, some Difficulty.medium⟩ rfl Difficulty.medium rfl "fb"

/-- C6: For every submission request whose `userAnswer` is missing or
non-numeric, or whose `sessionId` is missing, the submission endpoint
returns status 400 before performing any database read/write or any AI
call: no session lookup, no feedback generation, and no submission row
occur. -/
theorem claim_C6_bad_request_400
    (db : List SessionRow) (body : SubmitBody) (fb : String) (ifail : Bool)
    (h : body.userAnswer = none ∨ body.sessionId = none ∨ body.sessionId = some "") :
    (submitPOST db body fb ifail).status = 400 ∧
    (submitPOST db body fb ifail).sessionLookedUp = false ∧
    (submitPOST db body fb ifail).aiCalled = false ∧
    (submitPOST db body fb ifail).insertAttempted = false ∧
    (submitPOST db body fb ifail).inserted = none := by
  rw [submitPOST_badBody db body fb ifail h]
  exact ⟨rfl, rfl, rfl, rfl, rfl⟩

/-- Witness for C6: a request with a session id but no numeric answer. -/
theorem claim_C6_bad_request_400_witness :
    (submitPOST [⟨"s1", "P", 15, some Difficulty.medium⟩]
      ⟨some "s1", none, some 10⟩ "fb" false).status = 400 ∧
    (submitPOST [⟨"s1", "P", 15, some Difficulty.medium⟩]
      ⟨some "s1", none, some 10⟩ "fb" false).sessionLookedUp = false ∧
    (submitPOST [⟨"s1", "P", 15, some Difficulty.medium⟩]
      ⟨some "s1", none, some 10⟩ "fb" false).aiCalled = false ∧
    (submitPOST [⟨"s1", "P", 15, some Difficulty.medium⟩]
      ⟨some "s1", none, some 10⟩ "fb" false).insertAttempted = false ∧
    (submitPOST [⟨"s1", "P", 15, some Difficulty.medium⟩]
      ⟨some "s1", none, some 10⟩ "fb" false).inserted = none :=
  claim_C6_bad_request_400 [⟨"s1", "P", 15, some Difficulty.medium⟩]
    ⟨some "s1", none, some 10⟩ "fb" false (Or.inl rfl)

/-- C7: For every submission request whose `sessionId` does not identify
a stored session, the submission endpoint returns status 404 and creates
no submission row, and no AI feedback call is made. -/
theorem claim_C7_unknown_session_404
    (db : List SessionRow) (sid : String) (a : Int) (t : Option Int)
    (fb : String) (ifail : Bool)
    (hsid : sid ≠ "") (hfind : db.find? (fun r => r.id == sid) = none) :
    (submitPOST db ⟨some sid, some a, t⟩ fb ifail).status = 404 ∧
    (submitPOST db ⟨some sid, some a, t⟩ fb ifail).insertAttempted = false ∧
    (submitPOST db ⟨some sid, some a, t⟩ fb ifail).inserted = none ∧
    (submitPOST db ⟨some sid, some a, t⟩ fb ifail).aiCalled = false := by
  rw [submitPOST_notFound db sid a t fb ifail hsid hfind]
  exact ⟨rfl, rfl, rfl, rfl⟩

/-- Witness for C7: a lookup in a database without the requested id. -/
theorem claim_C7_unknown_session_404_witness :
    (submitPOST [⟨"s1", "P", 15, some Difficulty.medium⟩]
      ⟨some "nope", some 15, none⟩ "fb" false).status = 404 ∧
    (submitPOST [⟨"s1", "P", 15, some Difficulty.medium⟩]
      ⟨some "nope", some 15, none⟩ "fb" false).insertAttempted = false ∧
    (submitPOST [⟨"s1", "P", 15, some Difficulty.medium⟩]
      ⟨some "nope", some 15, none⟩ "fb" false).inserted = none ∧
    (submitPOST [⟨"s1", "P", 15, some Difficulty.medium⟩]
      ⟨some "nope", some 15, none⟩ "fb" false).aiCalled = false :=
  claim_C7_unknown_session_404 [⟨"s1", "P", 15, some Difficulty.medium⟩]
    "nope" 15 none "fb" false (by decide) rfl

/-- C8: For every valid submission request where the database insert of
the submission row fails, the endpoint still returns status 201 with the
computed `isCorrect` and the generated feedback text; the insert error
is never surfaced to the caller. -/
theorem claim_C8_insert_failure_still_201
    (db : List SessionRow) (sid : String) (s : SessionRow)
    (a : Int) (t : Option Int) (fb : String)
    (hsid : sid ≠ "") (hfind : db.find? (fun r => r.id == sid) = some s) :
    (submitPOST db ⟨some sid, some a, t⟩ fb true).status = 201 ∧
    (submitPOST db ⟨some sid, some a, t⟩ fb true).respIsCorrect =
      some (a == s.correct_answer) ∧
    (submitPOST db ⟨some sid, some a, t⟩ fb true).respFeedback = some fb.trim ∧
    (submitPOST db ⟨some sid, some a, t⟩ fb true).insertAttempted = true ∧
    (submitPOST db ⟨some sid, some a, t⟩ fb true).inserted = none := by
  rw [submitPOST_found db sid s a t fb true hsid hfind]
  exact ⟨rfl, rfl, rfl, rfl, rfl⟩

/-- Witness for C8 at a concrete request with a failing insert. -/
theorem claim_C8_insert_failure_still_201_witness :
    (submitPOST [⟨"s1", "P", 15, some Difficulty.medium⟩]
      ⟨some "s1", some 15, some 20⟩ " well done " true).status = 201 ∧
    (submitPOST [⟨"s1", "P", 15, some Difficulty.medium⟩]
      ⟨some "s1", some 15, some 20⟩ " well done " true).respIsCorrect =
      some ((15 : Int) == 15) ∧
    (submitPOST [⟨"s1", "P", 15, some Difficulty.medium⟩]
      ⟨some "s1", some 15, some 20⟩ " well done " true).respFeedback =
      some " well done ".trim ∧
    (submitPOST [⟨"s1", "P", 15, some Difficulty.medium⟩]
      ⟨some "s1", some 15, some 20⟩ " well done " true).insertAttempted = true ∧
    (submitPOST [⟨"s1", "P", 15, some Difficulty.medium⟩]
      ⟨some "s1", some 15, some 20⟩ " well done " true).inserted = none :=
  claim_C8_insert_failure_still_201 [⟨"s1", "P", 15, some Difficulty.medium⟩]
    "s1" ⟨"s1", "P", 15, some Difficulty.medium⟩ 15 (some 20) " well done "
    (by decide) rfl

/-- C9: Every submission record the system creates has stars earned in
the range 0 to 3, and stars earned is 0 whenever the answer is incorrect
or no elapsed time was supplied. -/
theorem claim_C9_stars_invariant
    (db : List SessionRow) (body : SubmitBody) (fb : String) (ifail : Bool)
    (r : SubmissionRow)
    (h : (submitPOST db body fb ifail).inserted = some r) :
    r.stars_earned ≤ 3 ∧
    (r.is_correct = false → r.stars_earned = 0) ∧
    (body.timeTakenSeconds = none → r.stars_earned = 0) := by
  obtain ⟨sid, ans, t⟩ := body
  cases ans with
  | none =>
    rw [submitPOST_badBody db _ fb ifail (Or.inl rfl)] at h
    simp [badRequestOutcome] at h
  | some a =>
    cases sid with
    | none =>
      rw [submitPOST_badBody db _ fb ifail (Or.inr (Or.inl rfl))] at h
      simp [badRequestOutcome] at h
    | some sidv =>
      by_cases hb : sidv = ""
      · subst hb
        rw [submitPOST_badBody db _ fb ifail (Or.inr (Or.inr rfl))] at h
        simp [badRequestOutcome] at h
      · cases hfind : db.find? (fun x => x.id == sidv) with
        | none =>
          rw [submitPOST_notFound db sidv a t fb ifail hb hfind] at h
          simp [notFoundOutcome] at h
        | some s =>
          rw [submitPOST_found db sidv s a t fb ifail hb hfind] at h
          by_cases hif : ifail
          · rw [if_pos hif] at h
            cases h
          · rw [if_neg hif, Option.some.injEq] at h
            subst h
            refine ⟨computeStars_le_three _ _ _, ?_, ?_⟩
            · intro hc
              replace hc : (a == s.correct_answer) = false := hc
              show computeStars (a == s.correct_answer) s.difficulty t = 0
              rw [hc, computeStars_incorrect]
            · intro ht
              replace ht : t = none := ht
              show computeStars (a == s.correct_answer) s.difficulty t = 0
              rw [ht, computeStars_no_time]

/-- Witness for C9 at a concrete created submission record. -/
theorem claim_C9_stars_invariant_witness :
    ∃ r, (submitPOST [⟨"s1", "P", 15, some Difficulty.medium⟩]
      ⟨some "s1", some 14, some 10⟩ "fb" false).inserted = some r ∧
    (r.stars_earned ≤ 3 ∧
     (r.is_correct = false → r.stars_earned = 0) ∧
     ((some (10 : Int) : Option Int) = none → r.stars_earned = 0)) :=
  ⟨_, rfl, claim_C9_stars_invariant [⟨"s1", "P", 15, some Difficulty.medium⟩]
    ⟨some "s1", some 14, some 10⟩ "fb" false _ rfl⟩

/-- C10: For every correct submission whose `timeTakenSeconds` is exactly
0, the endpoint awards 3 stars (0 is treated as a supplied elapsed time
below every threshold), yet the submission row is stored with a null
elapsed time, because the stored value is the falsy-coalesced
`timeTakenSeconds`. -/
theorem claim_C10_zero_seconds
    (db : List SessionRow) (sid : String) (s : SessionRow) (fb : String)
    (hsid : sid ≠ "") (hfind : db.find? (fun r => r.id == sid) = some s) :
    (submitPOST db ⟨some sid, some s.correct_answer, some 0⟩ fb false).inserted =
      some
        { session_id := sid
          user_answer := s.correct_answer
          is_correct := true
          feedback_text := fb.trim
          time_taken_seconds := none
          stars_earned := 3 } := by
  rw [submitPOST_found db sid s s.correct_answer (some 0) fb false hsid hfind]
  have h3 : computeStars true s.difficulty (some 0) = 3 := by
    unfold computeStars
    rcases s.difficulty with _ | d
    · decide
    · cases d <;> decide
  simp [h3]

/-- Witness for C10 at a concrete session and a zero elapsed time. -/
theorem claim_C10_zero_seconds_witness :
    (submitPOST [⟨"s1", "P", 15, some Difficulty.hard⟩]
      ⟨some "s1", some 15, some 0⟩ "fb" false).inserted =
      some
        { session_id := "s1"
          user_answer := 15
          is_correct := true
          feedback_text := "fb".trim
          time_taken_seconds := none
          stars_earned := 3 } := by
  have := claim_C10_zero_seconds [⟨"s1", "P", 15, some Difficulty.hard⟩]
    "s1" ⟨"s1", "P", 15, some Difficulty.hard⟩ "fb" (by decide) rfl
  exact this

/-! ### Claims about the generation route's normalizer -/

/-- C3: For every raw AI response text on which direct JSON parsing,
fence-stripping plus object-substring extraction, and the retry parse
all fail, the normalizer produces the fixed default problem with text
"Sarah has 25 apples. She gives 10 apples to her friend. How many
apples does Sarah have left?", answer 15, and no hint. -/
theorem claim_C3_fallback_problem (text : String)
    (h1 : jsonParse text = none)
    (h2 : jsonParse (cleanJsonText text) = none) :
    parseAIResponse text = fallbackProblem ∧
    jsGet (parseAIResponse text) "problem_text" =
      some (Json.str "Sarah has 25 apples. She gives 10 apples to her friend. How many apples does Sarah have left?") ∧
    jsGet (parseAIResponse text) "final_answer" = some (Json.num 15 0) ∧
    jsGet (parseAIResponse text) "hint" = none := by
  have hfb : parseAIResponse text = fallbackProblem := by
    unfold parseAIResponse parseStages
    rw [h1, h2]
    rfl
  refine ⟨hfb, ?_, ?_, ?_⟩ <;> rw [hfb] <;> rfl

/-- Witness for C3: a refusal message that no strategy can parse. -/
theorem claim_C3_fallback_problem_witness :
    parseAIResponse "I cannot generate a problem right now." = fallbackProblem ∧
    jsGet (parseAIResponse "I cannot generate a problem right now.") "problem_text" =
      some (Json.str "Sarah has 25 apples. She gives 10 apples to her friend. How many apples does Sarah have left?") ∧
    jsGet (parseAIResponse "I cannot generate a problem right now.") "final_answer" =
      some (Json.num 15 0) ∧
    jsGet (parseAIResponse "I cannot generate a problem right now.") "hint" = none :=
  claim_C3_fallback_problem "I cannot generate a problem right now." rfl rfl

/-- C5: For every raw text that parses successfully (by any strategy) to
an object whose text field is empty (more generally, falsy) or whose
answer field is not numeric, the generation operation raises rather than
persisting: it returns status 500 and inserts no session row, instead of
substituting the fallback problem. -/
theorem claim_C5_invalid_parse_500 (text : String) (v : Json)
    (hparse : parseStages text = some v)
    (hbad : truthyOpt (jsGet v "problem_text") = false ∨
            isNumOpt (jsGet v "final_answer") = false)
    (difficulty : Difficulty) (topic : Topic) (dbFails : Bool) :
    (handleGenerateProblem text difficulty topic dbFails).status = 500 ∧
    (handleGenerateProblem text difficulty topic dbFails).inserted = none := by
  have hv : parseAIResponse text = v := by
    unfold parseAIResponse
    rw [hparse]
    rfl
  unfold handleGenerateProblem
  rw [hv]
  rcases hbad with hbad | hbad <;> simp [hbad]

/-- Witness for C5: a flat parseable object with an empty text field, and a
parseable object whose empty text field sits beside a 21-level nested array
field. -/
theorem claim_C5_invalid_parse_500_witness :
    ((handleGenerateProblem "\x7b\"problem_text\": \"\", \"final_answer\": 5\x7d"
      Difficulty.medium Topic.random false).status = 500 ∧
    (handleGenerateProblem "\x7b\"problem_text\": \"\", \"final_answer\": 5\x7d"
      Difficulty.medium Topic.random false).inserted = none) ∧
    ((handleGenerateProblem "\x7b\"problem_text\":\"\",\"e\":[[[[[[[[[[[[[[[[[[[[[0]]]]]]]]]]]]]]]]]]]]]\x7d"
      Difficulty.medium Topic.random false).status = 500 ∧
    (handleGenerateProblem "\x7b\"problem_text\":\"\",\"e\":[[[[[[[[[[[[[[[[[[[[[0]]]]]]]]]]]]]]]]]]]]]\x7d"
      Difficulty.medium Topic.random false).inserted = none) :=
  ⟨claim_C5_invalid_parse_500 "\x7b\"problem_text\": \"\", \"final_answer\": 5\x7d"
    (Json.obj [("problem_text", Json.str ""), ("final_answer", Json.num 5 0)])
    rfl (Or.inl rfl) Difficulty.medium Topic.random false,
  claim_C5_invalid_parse_500 "\x7b\"problem_text\":\"\",\"e\":[[[[[[[[[[[[[[[[[[[[[0]]]]]]]]]]]]]]]]]]]]]\x7d"
    (Json.obj [("problem_text", Json.str ""),
      ("e", Json.arr [Json.arr [Json.arr [Json.arr [Json.arr [Json.arr [Json.arr [Json.arr [Json.arr [Json.arr [Json.arr [Json.arr [Json.arr [Json.arr [Json.arr [Json.arr [Json.arr [Json.arr [Json.arr [Json.arr [Json.arr [Json.num 0 0]]]]]]]]]]]]]]]]]]]]])])
    rfl (Or.inl rfl) Difficulty.medium Topic.random false⟩

/-- Regression check: the parser accepts nested arrays (the fuel of
`jsonParseL` covers the three recursion levels each bracket costs). -/
theorem jsonParse_nested_arrays :
    jsonParse "[[0]]" = some (Json.arr [Json.arr [Json.num 0 0]]) := rfl

/-- Regression check: the parser accepts deeply nested arrays. -/
theorem jsonParse_deep_nested_value :
    (jsonParse "[[[[[[[[[[[[[[[[[[[[[[[[[0]]]]]]]]]]]]]]]]]]]]]]]]]").isSome = true := rfl

/-- Regression check: the parser accepts an object with a deeply nested
array field and deeply nested objects. -/
theorem jsonParse_deep_object_field :
    (jsonParse "\x7b\"a\":[[[[[[[[[[[[[[[[[[[[[0]]]]]]]]]]]]]]]]]]]]]\x7d").isSome = true ∧
    (jsonParse "\x7b\"a\":\x7b\"b\":\x7b\"c\":\x7b\"d\":\x7b\"e\":\x7b\"f\":[1,2,3]\x7d\x7d\x7d\x7d\x7d\x7d").isSome = true :=
  ⟨rfl, rfl⟩

/-! ### List helper lemmas for the parser development -/

theorem dropWhileCharAppendPos (P : Char → Bool) (a b : List Char) (c : Char) (t : List Char)
    (h : a.dropWhile P = c :: t) : (a ++ b).dropWhile P = c :: (t ++ b) := by
  induction a with
  | nil => simp [List.dropWhile] at h
  | cons x xs ih =>
    rw [List.cons_append]
    rw [List.dropWhile_cons] at h ⊢
    by_cases hx : P x = true
    · rw [if_pos hx] at h ⊢
      exact ih h
    · rw [if_neg hx] at h ⊢
      obtain ⟨rfl, rfl⟩ := List.cons.injEq .. |>.mp h
      rfl

theorem dropWhileCharAppendAll (P : Char → Bool) (a b : List Char)
    (h : ∀ c ∈ a, P c = true) : (a ++ b).dropWhile P = b.dropWhile P := by
  induction a with
  | nil => rfl
  | cons x xs ih =>
    rw [List.cons_append, List.dropWhile_cons, if_pos (h x (by simp))]
    exact ih (fun c hc => h c (by simp [hc]))

theorem memOfDropWhileChar (P : Char → Bool) (a : List Char) (c : Char)
    (h : c ∈ a.dropWhile P) : c ∈ a := by
  induction a with
  | nil => simp [List.dropWhile] at h
  | cons x xs ih =>
    rw [List.dropWhile_cons] at h
    by_cases hx : P x = true
    · rw [if_pos hx] at h
      exact List.mem_cons_of_mem x (ih h)
    · rw [if_neg hx] at h
      exact h

theorem dropWhileCharHeadFalse (P : Char → Bool) (a : List Char) (c : Char) (t : List Char)
    (h : a.dropWhile P = c :: t) : P c = false := by
  induction a with
  | nil => simp [List.dropWhile] at h
  | cons x xs ih =>
    rw [List.dropWhile_cons] at h
    by_cases hx : P x = true
    · rw [if_pos hx] at h
      exact ih h
    · rw [if_neg hx] at h
      obtain ⟨rfl, rfl⟩ := List.cons.injEq .. |>.mp h
      exact Bool.not_eq_true _ |>.mp hx

theorem takeWhileCharAppendPos (P : Char → Bool) (a b : List Char) (c : Char) (t : List Char)
    (h : a.dropWhile P = c :: t) : (a ++ b).takeWhile P = a.takeWhile P := by
  induction a with
  | nil => simp [List.dropWhile] at h
  | cons x xs ih =>
    rw [List.cons_append, List.takeWhile_cons, List.takeWhile_cons]
    rw [List.dropWhile_cons] at h
    by_cases hx : P x = true
    · rw [if_pos hx] at h
      simp only [hx]
      rw [ih h]
    · rw [if_neg hx] at h
      simp only [hx]
      simp

theorem memTakeWhileChar (P : Char → Bool) (a : List Char) (c : Char)
    (h : c ∈ a.takeWhile P) : P c = true := by
  induction a with
  | nil => simp [List.takeWhile] at h
  | cons x xs ih =>
    rw [List.takeWhile_cons] at h
    by_cases hx : P x = true
    · rw [if_pos hx] at h
      rcases List.mem_cons.mp h with rfl | h2
      · exact hx
      · exact ih h2
    · rw [if_neg hx] at h
      cases h

theorem litPrefixIff (lit cs : List Char) :
    litPrefix lit cs = true ↔ ∃ t, cs = lit ++ t := by
  induction lit generalizing cs with
  | nil => simp [litPrefix]
  | cons a as ih =>
    cases cs with
    | nil =>
      simp only [litPrefix, List.cons_append]
      constructor
      · intro h; cases h
      · rintro ⟨t, h⟩; cases h
    | cons b bs =>
      simp only [litPrefix, Bool.and_eq_true, decide_eq_true_eq, ih bs]
      constructor
      · rintro ⟨rfl, t, rfl⟩
        exact ⟨t, rfl⟩
      · rintro ⟨t, h⟩
        obtain ⟨rfl, rfl⟩ := List.cons.injEq .. |>.mp h
        exact ⟨rfl, t, rfl⟩

theorem litPrefixHeadNe (m0 : Char) (mr : List Char) (c : Char) (t : List Char)
    (h : c ≠ m0) : litPrefix (m0 :: mr) (c :: t) = false := by
  have hd : (decide (m0 = c)) = false := decide_eq_false (fun hh => h hh.symm)
  simp [litPrefix, hd]

theorem expectLitSome (lit cs : List Char) (v w : Json) (rest : List Char)
    (h : expectLit lit cs v = some (w, rest)) : w = v ∧ cs = lit ++ rest := by
  unfold expectLit at h
  by_cases hp : litPrefix lit cs = true
  · rw [if_pos hp] at h
    obtain ⟨t, rfl⟩ := (litPrefixIff lit cs).mp hp
    rw [List.drop_left] at h
    obtain ⟨h1, h2⟩ := Prod.mk.injEq .. |>.mp (Option.some.injEq .. |>.mp h)
    exact ⟨h1.symm, by rw [h2]⟩
  · rw [if_neg hp] at h
    cases h

theorem expectLitAppend (lit cs : List Char) (v w : Json) (rest ys : List Char)
    (h : expectLit lit cs v = some (w, rest)) :
    expectLit lit (cs ++ ys) v = some (w, rest ++ ys) := by
  obtain ⟨rfl, rfl⟩ := expectLitSome lit cs v w rest h
  unfold expectLit
  rw [List.append_assoc]
  rw [if_pos ((litPrefixIff _ _).mpr ⟨rest ++ ys, rfl⟩)]
  rw [List.drop_left]

/-! ### Whitespace helper lemmas -/

theorem skipWsAppendPos (a b : List Char) (c : Char) (t : List Char)
    (h : skipWs a = c :: t) : skipWs (a ++ b) = c :: (t ++ b) :=
  dropWhileCharAppendPos isJsonWs a b c t h

theorem skipWsAppendNil (a b : List Char) (h : skipWs a = []) :
    skipWs (a ++ b) = skipWs b :=
  dropWhileCharAppendAll isJsonWs a b (by
    have := List.dropWhile_eq_nil_iff.mp h
    intro c hc
    exact this c hc)

theorem skipWsConsNotWs (c : Char) (t : List Char) (h : isJsonWs c = false) :
    skipWs (c :: t) = c :: t := by
  simp [skipWs, List.dropWhile_cons, h]

theorem skipWsNeNilOfMem (r : List Char) (c : Char) (hc : c ∈ r)
    (h : isJsonWs c = false) : skipWs r ≠ [] := by
  rw [skipWs, ne_eq, List.dropWhile_eq_nil_iff]
  push_neg
  exact ⟨c, hc, by simp [h]⟩

theorem skipWsNeNilCons (r : List Char) (c : Char) (t : List Char)
    (h : skipWs r = c :: t) : r ≠ [] := by
  intro hr
  subst hr
  simp [skipWs, List.dropWhile] at h

/-! ### Parser empty-input lemmas -/

theorem parseValueNil (f : Nat) : parseValue f [] = none := by
  cases f <;> simp [parseValue]

theorem parseMemberNil (f : Nat) : parseMember f [] = none := by
  cases f <;> simp [parseMember]

theorem parseMembersNil (f : Nat) (acc : List (String × Json)) :
    parseMembers f [] acc = none := by
  cases f with
  | zero => simp [parseMembers]
  | succ f => simp [parseMembers, parseMemberNil]

theorem parseItemsNil (f : Nat) (acc : List Json) : parseItems f [] acc = none := by
  cases f with
  | zero => simp [parseItems]
  | succ f => simp [parseItems, parseValueNil]

theorem parseObjectBodyNil (f : Nat) : parseObjectBody f [] = none := by
  cases f <;> simp [parseObjectBody]

theorem parseArrayBodyNil (f : Nat) : parseArrayBody f [] = none := by
  cases f <;> simp [parseArrayBody]

/-! ### Evaluation shapes of the string-literal parser -/

theorem pscQuote (rest : List Char) : parseStringChars ('"' :: rest) = some ([], rest) := by
  rw [parseStringChars.eq_def]
  simp

theorem pscUHex (h1 h2 h3 h4 : Char) (rest3 : List Char)
    (hhex : (isHexC h1 && isHexC h2 && isHexC h3 && isHexC h4) = true) :
    parseStringChars ('\\' :: 'u' :: h1 :: h2 :: h3 :: h4 :: rest3) =
      (parseStringChars rest3).map (fun p =>
        (Char.ofNat (hexVal h1 * 4096 + hexVal h2 * 256 + hexVal h3 * 16 + hexVal h4) :: p.1, p.2)) := by
  rw [parseStringChars.eq_def]
  simp [hhex]

theorem pscEsc (e : Char) (rest2 : List Char) (hneu : ¬e = 'u') (ec : Char)
    (hesc : escChar e = some ec) :
    parseStringChars ('\\' :: e :: rest2) =
      (parseStringChars rest2).map (fun p => (ec :: p.1, p.2)) := by
  rw [parseStringChars.eq_def]
  simp [hneu, hesc]

theorem pscPlain (c : Char) (rest : List Char) (h1 : ¬c = '"') (h2 : ¬c = '\\')
    (h3 : ¬c.toNat < 32) :
    parseStringChars (c :: rest) = (parseStringChars rest).map (fun p => (c :: p.1, p.2)) := by
  rw [parseStringChars.eq_def]
  simp [h1, h2, h3]

/-! ### Append-stability of the token parsers -/

theorem parseStringCharsAppend (ys : List Char) :
    ∀ (cs s r : List Char), parseStringChars cs = some (s, r) →
      parseStringChars (cs ++ ys) = some (s, r ++ ys) := by
  intro cs
  induction cs using parseStringChars.induct with
  | case1 =>
    intro s r h
    rw [parseStringChars.eq_def] at h
    cases h
  | case2 rest =>
    intro s r h
    rw [pscQuote] at h
    obtain ⟨rfl, rfl⟩ := Prod.mk.injEq .. |>.mp (Option.some.inj h)
    rw [List.cons_append, pscQuote]
  | case3 hne =>
    intro s r h
    rw [parseStringChars.eq_def] at h
    simp at h
  | case4 h1 h2 h3 h4 rest3 hhex hne ih =>
    intro s r h
    rw [pscUHex h1 h2 h3 h4 rest3 hhex] at h
    rcases hm : parseStringChars rest3 with _ | ⟨s3, r3⟩
    · rw [hm] at h
      cases h
    · rw [hm] at h
      obtain ⟨rfl, rfl⟩ := Prod.mk.injEq .. |>.mp (Option.some.inj h)
      simp only [List.cons_append]
      rw [pscUHex h1 h2 h3 h4 (rest3 ++ ys) hhex, ih s3 r3 hm]
      rfl
  | case5 h1 h2 h3 h4 rest3 hhex hne =>
    intro s r h
    rw [parseStringChars.eq_def] at h
    simp [hhex] at h
  | case6 rest2 hshape hne =>
    intro s r h
    exfalso
    rw [parseStringChars.eq_def] at h
    match rest2, hshape, h with
    | [], _, h => simp at h
    | [a], _, h => simp at h
    | [a, b], _, h => simp at h
    | [a, b, c], _, h => simp at h
    | a :: b :: c :: d :: t, hs, h => exact hs a b c d t rfl
  | case7 e rest2 hneu ec hesc hne ih =>
    intro s r h
    rw [pscEsc e rest2 hneu ec hesc] at h
    rcases hm : parseStringChars rest2 with _ | ⟨s2, r2⟩
    · rw [hm] at h
      cases h
    · rw [hm] at h
      obtain ⟨rfl, rfl⟩ := Prod.mk.injEq .. |>.mp (Option.some.inj h)
      simp only [List.cons_append]
      rw [pscEsc e (rest2 ++ ys) hneu ec hesc, ih s2 r2 hm]
      rfl
  | case8 e rest2 hneu hesc hne =>
    intro s r h
    rw [parseStringChars.eq_def] at h
    simp [hneu, hesc] at h
  | case9 e rest2 hne1 hne2 hlt =>
    intro s r h
    rw [parseStringChars.eq_def] at h
    simp [hne1, hne2, hlt] at h
  | case10 e rest2 hne1 hne2 hge ih =>
    intro s r h
    rw [pscPlain e rest2 hne1 hne2 hge] at h
    rcases hm : parseStringChars rest2 with _ | ⟨s2, r2⟩
    · rw [hm] at h
      cases h
    · rw [hm] at h
      obtain ⟨rfl, rfl⟩ := Prod.mk.injEq .. |>.mp (Option.some.inj h)
      simp only [List.cons_append]
      rw [pscPlain e (rest2 ++ ys) hne1 hne2 hge, ih s2 r2 hm]
      rfl

theorem digitIsNumTok (c : Char) (h : isDigitC c = true) : isNumTokChar c = true := by
  simp [isNumTokChar, h]

theorem parseIntPartAppend (cs ys : List Char) (ip : Nat) (r : List Char)
    (h : parseIntPart cs = some (ip, r)) (hr : r ≠ []) :
    parseIntPart (cs ++ ys) = some (ip, r ++ ys) := by
  cases cs with
  | nil =>
    rw [parseIntPart.eq_def] at h
    cases h
  | cons c rest =>
    rw [parseIntPart.eq_def] at h
    rw [List.cons_append, parseIntPart.eq_def]
    simp only [] at h ⊢
    by_cases hc : c = '0'
    · rw [if_pos hc] at h ⊢
      obtain ⟨rfl, rfl⟩ := Prod.mk.injEq .. |>.mp (Option.some.inj h)
      rfl
    · rw [if_neg hc] at h ⊢
      by_cases hd : isDigitC c = true
      · rw [if_pos hd] at h ⊢
        obtain ⟨rfl, rfl⟩ := Prod.mk.injEq .. |>.mp (Option.some.inj h)
        obtain ⟨d, t, hdt⟩ := List.exists_cons_of_ne_nil hr
        rw [takeWhileCharAppendPos isDigitC rest ys d t hdt,
          dropWhileCharAppendPos isDigitC rest ys d t hdt, hdt]
        rfl
      · rw [if_neg hd] at h
        cases h

theorem parseIntPartConsumed (cs : List Char) (ip : Nat) (r : List Char)
    (h : parseIntPart cs = some (ip, r)) :
    ∃ pre, cs = pre ++ r ∧ ∀ c2 ∈ pre, isNumTokChar c2 = true := by
  cases cs with
  | nil =>
    rw [parseIntPart.eq_def] at h
    cases h
  | cons c rest =>
    rw [parseIntPart.eq_def] at h
    simp only [] at h
    by_cases hc : c = '0'
    · rw [if_pos hc] at h
      obtain ⟨rfl, rfl⟩ := Prod.mk.injEq .. |>.mp (Option.some.inj h)
      exact ⟨[c], by simp, by simp [hc, isNumTokChar, isDigitC]⟩
    · rw [if_neg hc] at h
      by_cases hd : isDigitC c = true
      · rw [if_pos hd] at h
        obtain ⟨rfl, rfl⟩ := Prod.mk.injEq .. |>.mp (Option.some.inj h)
        refine ⟨c :: rest.takeWhile isDigitC, ?_, ?_⟩
        · rw [List.cons_append, List.takeWhile_append_dropWhile]
        · intro c2 hc2
          rcases List.mem_cons.mp hc2 with rfl | hc2
          · exact digitIsNumTok c2 hd
          · exact digitIsNumTok c2 (memTakeWhileChar isDigitC rest c2 hc2)
      · rw [if_neg hd] at h
        cases h

theorem parseFracAppend (cs ys : List Char) (fv fd : Nat) (r : List Char)
    (h : parseFrac cs = some (fv, fd, r)) (hr : r ≠ []) :
    parseFrac (cs ++ ys) = some (fv, fd, r ++ ys) := by
  cases cs with
  | nil =>
    rw [parseFrac.eq_def] at h
    obtain ⟨rfl, rfl, rfl⟩ := Prod.mk.injEq .. |>.mp (Option.some.inj h) |>.imp id
      (fun hh => Prod.mk.injEq .. |>.mp hh)
    exact absurd rfl hr
  | cons c t =>
    rw [parseFrac.eq_def] at h
    rw [List.cons_append, parseFrac.eq_def]
    simp only [] at h ⊢
    by_cases hc : c = '.'
    · rw [if_pos hc] at h ⊢
      by_cases hds : (t.takeWhile isDigitC).isEmpty = true
      · rw [if_pos hds] at h
        cases h
      · rw [if_neg hds] at h
        obtain ⟨rfl, rfl, rfl⟩ := Prod.mk.injEq .. |>.mp (Option.some.inj h) |>.imp id
          (fun hh => Prod.mk.injEq .. |>.mp hh)
        obtain ⟨d, t2, hdt⟩ := List.exists_cons_of_ne_nil hr
        rw [takeWhileCharAppendPos isDigitC t ys d t2 hdt,
          dropWhileCharAppendPos isDigitC t ys d t2 hdt, hdt, if_neg hds]
        rfl
    · rw [if_neg hc] at h ⊢
      obtain ⟨rfl, rfl, rfl⟩ := Prod.mk.injEq .. |>.mp (Option.some.inj h) |>.imp id
        (fun hh => Prod.mk.injEq .. |>.mp hh)
      rfl

theorem parseFracConsumed (cs : List Char) (fv fd : Nat) (r : List Char)
    (h : parseFrac cs = some (fv, fd, r)) :
    ∃ pre, cs = pre ++ r ∧ ∀ c2 ∈ pre, isNumTokChar c2 = true := by
  cases cs with
  | nil =>
    rw [parseFrac.eq_def] at h
    obtain ⟨rfl, rfl, rfl⟩ := Prod.mk.injEq .. |>.mp (Option.some.inj h) |>.imp id
      (fun hh => Prod.mk.injEq .. |>.mp hh)
    exact ⟨[], rfl, by simp⟩
  | cons c t =>
    rw [parseFrac.eq_def] at h
    simp only [] at h
    by_cases hc : c = '.'
    · rw [if_pos hc] at h
      by_cases hds : (t.takeWhile isDigitC).isEmpty = true
      · rw [if_pos hds] at h
        cases h
      · rw [if_neg hds] at h
        obtain ⟨rfl, rfl, rfl⟩ := Prod.mk.injEq .. |>.mp (Option.some.inj h) |>.imp id
          (fun hh => Prod.mk.injEq .. |>.mp hh)
        refine ⟨c :: t.takeWhile isDigitC, ?_, ?_⟩
        · rw [List.cons_append, List.takeWhile_append_dropWhile]
        · intro c2 hc2
          rcases List.mem_cons.mp hc2 with rfl | hc2
          · simp [isNumTokChar, hc]
          · exact digitIsNumTok c2 (memTakeWhileChar isDigitC t c2 hc2)
    · rw [if_neg hc] at h
      obtain ⟨rfl, rfl, rfl⟩ := Prod.mk.injEq .. |>.mp (Option.some.inj h) |>.imp id
        (fun hh => Prod.mk.injEq .. |>.mp hh)
      exact ⟨[], rfl, by simp⟩

theorem parseExpAppend (cs ys : List Char) (e : Int) (r : List Char)
    (h : parseExp cs = some (e, r)) (hr : r ≠ []) :
    parseExp (cs ++ ys) = some (e, r ++ ys) := by
  cases cs with
  | nil =>
    rw [parseExp.eq_def] at h
    obtain ⟨rfl, rfl⟩ := Prod.mk.injEq .. |>.mp (Option.some.inj h)
    exact absurd rfl hr
  | cons c rest =>
    rw [parseExp.eq_def] at h
    rw [List.cons_append, parseExp.eq_def]
    simp only [] at h ⊢
    by_cases he : (c = 'e' || c = 'E') = true
    · rw [if_pos he] at h ⊢
      cases rest with
      | nil =>
        simp at h
      | cons c2 t =>
        rw [List.cons_append]
        simp only [] at h ⊢
        by_cases hp : c2 = '+'
        · rw [if_pos hp] at h ⊢
          simp only [] at h ⊢
          by_cases hds : (t.takeWhile isDigitC).isEmpty = true
          · rw [if_pos hds] at h
            cases h
          · rw [if_neg hds] at h
            obtain ⟨rfl, rfl⟩ := Prod.mk.injEq .. |>.mp (Option.some.inj h)
            obtain ⟨d, t2, hdt⟩ := List.exists_cons_of_ne_nil hr
            rw [takeWhileCharAppendPos isDigitC t ys d t2 hdt,
              dropWhileCharAppendPos isDigitC t ys d t2 hdt, hdt, if_neg hds]
            rfl
        · rw [if_neg hp] at h ⊢
          by_cases hm : c2 = '-'
          · rw [if_pos hm] at h ⊢
            simp only [] at h ⊢
            by_cases hds : (t.takeWhile isDigitC).isEmpty = true
            · rw [if_pos hds] at h
              cases h
            · rw [if_neg hds] at h
              obtain ⟨rfl, rfl⟩ := Prod.mk.injEq .. |>.mp (Option.some.inj h)
              obtain ⟨d, t2, hdt⟩ := List.exists_cons_of_ne_nil hr
              rw [takeWhileCharAppendPos isDigitC t ys d t2 hdt,
                dropWhileCharAppendPos isDigitC t ys d t2 hdt, hdt, if_neg hds]
              rfl
          · rw [if_neg hm] at h ⊢
            simp only [] at h ⊢
            by_cases hds : ((c2 :: t).takeWhile isDigitC).isEmpty = true
            · rw [if_pos hds] at h
              cases h
            · rw [if_neg hds] at h
              obtain ⟨rfl, rfl⟩ := Prod.mk.injEq .. |>.mp (Option.some.inj h)
              obtain ⟨d, t2, hdt⟩ := List.exists_cons_of_ne_nil hr
              have h1 := takeWhileCharAppendPos isDigitC (c2 :: t) ys d t2 hdt
              have h2 := dropWhileCharAppendPos isDigitC (c2 :: t) ys d t2 hdt
              rw [List.cons_append] at h1 h2
              rw [h1, h2, hdt, if_neg hds]
              rfl
    · rw [if_neg he] at h ⊢
      obtain ⟨rfl, rfl⟩ := Prod.mk.injEq .. |>.mp (Option.some.inj h)
      rfl

theorem parseExpConsumed (cs : List Char) (e : Int) (r : List Char)
    (h : parseExp cs = some (e, r)) :
    ∃ pre, cs = pre ++ r ∧ ∀ c2 ∈ pre, isNumTokChar c2 = true := by
  cases cs with
  | nil =>
    rw [parseExp.eq_def] at h
    obtain ⟨rfl, rfl⟩ := Prod.mk.injEq .. |>.mp (Option.some.inj h)
    exact ⟨[], rfl, by simp⟩
  | cons c rest =>
    rw [parseExp.eq_def] at h
    simp only [] at h
    by_cases he : (c = 'e' || c = 'E') = true
    · rw [if_pos he] at h
      have hc : isNumTokChar c = true := by
        rcases Bool.or_eq_true .. |>.mp he with hh | hh <;>
          simp [isNumTokChar, decide_eq_true_eq.mp hh]
      cases rest with
      | nil =>
        simp at h
      | cons c2 t =>
        simp only [] at h
        by_cases hp : c2 = '+'
        · rw [if_pos hp] at h
          simp only [] at h
          by_cases hds : (t.takeWhile isDigitC).isEmpty = true
          · rw [if_pos hds] at h
            cases h
          · rw [if_neg hds] at h
            obtain ⟨rfl, rfl⟩ := Prod.mk.injEq .. |>.mp (Option.some.inj h)
            refine ⟨c :: c2 :: t.takeWhile isDigitC, ?_, ?_⟩
            · simp [List.takeWhile_append_dropWhile]
            · intro x hx
              rcases List.mem_cons.mp hx with rfl | hx
              · exact hc
              · rcases List.mem_cons.mp hx with rfl | hx
                · simp [isNumTokChar, hp]
                · exact digitIsNumTok x (memTakeWhileChar isDigitC t x hx)
        · rw [if_neg hp] at h
          by_cases hm : c2 = '-'
          · rw [if_pos hm] at h
            simp only [] at h
            by_cases hds : (t.takeWhile isDigitC).isEmpty = true
            · rw [if_pos hds] at h
              cases h
            · rw [if_neg hds] at h
              obtain ⟨rfl, rfl⟩ := Prod.mk.injEq .. |>.mp (Option.some.inj h)
              refine ⟨c :: c2 :: t.takeWhile isDigitC, ?_, ?_⟩
              · simp [List.takeWhile_append_dropWhile]
              · intro x hx
                rcases List.mem_cons.mp hx with rfl | hx
                · exact hc
                · rcases List.mem_cons.mp hx with rfl | hx
                  · simp [isNumTokChar, hm]
                  · exact digitIsNumTok x (memTakeWhileChar isDigitC t x hx)
          · rw [if_neg hm] at h
            simp only [] at h
            by_cases hds : ((c2 :: t).takeWhile isDigitC).isEmpty = true
            · rw [if_pos hds] at h
              cases h
            · rw [if_neg hds] at h
              obtain ⟨rfl, rfl⟩ := Prod.mk.injEq .. |>.mp (Option.some.inj h)
              refine ⟨c :: (c2 :: t).takeWhile isDigitC, ?_, ?_⟩
              · simp [List.takeWhile_append_dropWhile]
              · intro x hx
                rcases List.mem_cons.mp hx with rfl | hx
                · exact hc
                · exact digitIsNumTok x (memTakeWhileChar isDigitC (c2 :: t) x hx)
    · rw [if_neg he] at h
      obtain ⟨rfl, rfl⟩ := Prod.mk.injEq .. |>.mp (Option.some.inj h)
      exact ⟨[], rfl, by simp⟩

theorem parseNumberAppend (cs ys : List Char) (v : Json) (r : List Char)
    (h : parseNumber cs = some (v, r)) (hr : r ≠ []) :
    parseNumber (cs ++ ys) = some (v, r ++ ys) := by
  cases cs with
  | nil =>
    unfold parseNumber at h
    simp [parseIntPart] at h
  | cons c t =>
    unfold parseNumber at h ⊢
    rw [List.cons_append]
    simp only [] at h ⊢
    by_cases hneg : c = '-'
    · rw [if_pos hneg] at h ⊢
      simp only [] at h ⊢
      rcases hip : parseIntPart t with _ | ⟨ip, r1⟩
      · rw [hip] at h
        cases h
      · rw [hip] at h
        simp only [] at h
        rcases hfr : parseFrac r1 with _ | ⟨fv, fd, r2⟩
        · rw [hfr] at h
          cases h
        · rw [hfr] at h
          simp only [] at h
          rcases hex : parseExp r2 with _ | ⟨e0, r3⟩
          · rw [hex] at h
            cases h
          · rw [hex] at h
            simp only [] at h
            obtain ⟨rfl, rfl⟩ := Prod.mk.injEq .. |>.mp (Option.some.inj h)
            obtain ⟨pre3, rfl, -⟩ := parseExpConsumed r2 e0 r3 hex
            obtain ⟨pre2, rfl, -⟩ := parseFracConsumed r1 fv fd _ hfr
            have hr2 : pre3 ++ r3 ≠ [] := by simp [hr]
            have hr1 : pre2 ++ (pre3 ++ r3) ≠ [] := by simp [hr]
            rw [parseIntPartAppend t ys ip _ hip hr1]
            simp only []
            rw [parseFracAppend _ ys fv fd _ hfr hr2]
            simp only []
            rw [parseExpAppend _ ys e0 r3 hex hr]
    · rw [if_neg hneg] at h ⊢
      simp only [] at h ⊢
      rcases hip : parseIntPart (c :: t) with _ | ⟨ip, r1⟩
      · rw [hip] at h
        cases h
      · rw [hip] at h
        simp only [] at h
        rcases hfr : parseFrac r1 with _ | ⟨fv, fd, r2⟩
        · rw [hfr] at h
          cases h
        · rw [hfr] at h
          simp only [] at h
          rcases hex : parseExp r2 with _ | ⟨e0, r3⟩
          · rw [hex] at h
            cases h
          · rw [hex] at h
            simp only [] at h
            obtain ⟨rfl, rfl⟩ := Prod.mk.injEq .. |>.mp (Option.some.inj h)
            obtain ⟨pre3, rfl, -⟩ := parseExpConsumed r2 e0 r3 hex
            obtain ⟨pre2, rfl, -⟩ := parseFracConsumed r1 fv fd _ hfr
            have hr2 : pre3 ++ r3 ≠ [] := by simp [hr]
            have hr1 : pre2 ++ (pre3 ++ r3) ≠ [] := by simp [hr]
            have hip2 := parseIntPartAppend (c :: t) ys ip _ hip hr1
            rw [List.cons_append] at hip2
            rw [hip2]
            simp only []
            rw [parseFracAppend _ ys fv fd _ hfr hr2]
            simp only []
            rw [parseExpAppend _ ys e0 r3 hex hr]

theorem parseNumberConsumed (cs : List Char) (v : Json) (r : List Char)
    (h : parseNumber cs = some (v, r)) :
    ∃ pre, cs = pre ++ r ∧ ∀ c2 ∈ pre, isNumTokChar c2 = true := by
  cases cs with
  | nil =>
    unfold parseNumber at h
    simp [parseIntPart] at h
  | cons c t =>
    unfold parseNumber at h
    simp only [] at h
    by_cases hneg : c = '-'
    · rw [if_pos hneg] at h
      simp only [] at h
      rcases hip : parseIntPart t with _ | ⟨ip, r1⟩
      · rw [hip] at h
        cases h
      · rw [hip] at h
        simp only [] at h
        rcases hfr : parseFrac r1 with _ | ⟨fv, fd, r2⟩
        · rw [hfr] at h
          cases h
        · rw [hfr] at h
          simp only [] at h
          rcases hex : parseExp r2 with _ | ⟨e0, r3⟩
          · rw [hex] at h
            cases h
          · rw [hex] at h
            simp only [] at h
            obtain ⟨rfl, rfl⟩ := Prod.mk.injEq .. |>.mp (Option.some.inj h)
            obtain ⟨pre3, rfl, hm3⟩ := parseExpConsumed r2 e0 r3 hex
            obtain ⟨pre2, rfl, hm2⟩ := parseFracConsumed r1 fv fd _ hfr
            obtain ⟨pre1, rfl, hm1⟩ := parseIntPartConsumed t ip _ hip
            refine ⟨c :: (pre1 ++ pre2 ++ pre3), by simp, ?_⟩
            intro x hx
            rcases List.mem_cons.mp hx with rfl | hx
            · simp [isNumTokChar, hneg]
            · rcases List.mem_append.mp hx with hx | hx
              · rcases List.mem_append.mp hx with hx | hx
                · exact hm1 x hx
                · exact hm2 x hx
              · exact hm3 x hx
    · rw [if_neg hneg] at h
      simp only [] at h
      rcases hip : parseIntPart (c :: t) with _ | ⟨ip, r1⟩
      · rw [hip] at h
        cases h
      · rw [hip] at h
        simp only [] at h
        rcases hfr : parseFrac r1 with _ | ⟨fv, fd, r2⟩
        · rw [hfr] at h
          cases h
        · rw [hfr] at h
          simp only [] at h
          rcases hex : parseExp r2 with _ | ⟨e0, r3⟩
          · rw [hex] at h
            cases h
          · rw [hex] at h
            simp only [] at h
            obtain ⟨rfl, rfl⟩ := Prod.mk.injEq .. |>.mp (Option.some.inj h)
            obtain ⟨pre3, rfl, hm3⟩ := parseExpConsumed r2 e0 r3 hex
            obtain ⟨pre2, rfl, hm2⟩ := parseFracConsumed r1 fv fd _ hfr
            obtain ⟨pre1, hpre1, hm1⟩ := parseIntPartConsumed (c :: t) ip _ hip
            refine ⟨pre1 ++ pre2 ++ pre3, by simp [← hpre1], ?_⟩
            intro x hx
            rcases List.mem_append.mp hx with hx | hx
            · rcases List.mem_append.mp hx with hx | hx
              · exact hm1 x hx
              · exact hm2 x hx
            · exact hm3 x hx

/-! ### Fuel monotonicity of the mutual JSON parser -/

theorem parseMonoAll (f : Nat) :
    (∀ cs x, parseValue f cs = some x → parseValue (f + 1) cs = some x) ∧
    (∀ cs x, parseMember f cs = some x → parseMember (f + 1) cs = some x) ∧
    (∀ cs acc x, parseMembers f cs acc = some x → parseMembers (f + 1) cs acc = some x) ∧
    (∀ cs x, parseObjectBody f cs = some x → parseObjectBody (f + 1) cs = some x) ∧
    (∀ cs acc x, parseItems f cs acc = some x → parseItems (f + 1) cs acc = some x) ∧
    (∀ cs x, parseArrayBody f cs = some x → parseArrayBody (f + 1) cs = some x) := by
  induction f with
  | zero =>
    refine ⟨fun cs x h => ?_, fun cs x h => ?_, fun cs acc x h => ?_, fun cs x h => ?_,
      fun cs acc x h => ?_, fun cs x h => ?_⟩ <;>
      simp [parseValue, parseMember, parseMembers, parseObjectBody, parseItems,
        parseArrayBody] at h
  | succ f ih =>
    obtain ⟨ihV, ihM, ihMs, ihO, ihI, ihA⟩ := ih
    refine ⟨?_, ?_, ?_, ?_, ?_, ?_⟩
    · -- parseValue
      intro cs x h
      cases cs with
      | nil => rw [parseValueNil] at h; cases h
      | cons c rest =>
        simp only [parseValue] at h ⊢
        by_cases h1 : c = '{'
        · rw [if_pos h1] at h ⊢
          exact ihO _ _ h
        · rw [if_neg h1] at h ⊢
          by_cases h2 : c = '['
          · rw [if_pos h2] at h ⊢
            exact ihA _ _ h
          · rw [if_neg h2] at h ⊢
            by_cases h3 : c = '"'
            · rw [if_pos h3] at h ⊢
              exact h
            · rw [if_neg h3] at h ⊢
              by_cases h4 : c = 't'
              · rw [if_pos h4] at h ⊢
                exact h
              · rw [if_neg h4] at h ⊢
                by_cases h5 : c = 'f'
                · rw [if_pos h5] at h ⊢
                  exact h
                · rw [if_neg h5] at h ⊢
                  by_cases h6 : c = 'n'
                  · rw [if_pos h6] at h ⊢
                    exact h
                  · rw [if_neg h6] at h ⊢
                    exact h
    · -- parseMember
      intro cs x h
      cases cs with
      | nil => rw [parseMemberNil] at h; cases h
      | cons c rest =>
        simp only [parseMember] at h ⊢
        by_cases h1 : c = '"'
        · rw [if_pos h1] at h ⊢
          rcases hs : parseStringChars rest with _ | ⟨key, r1⟩
          · rw [hs] at h
            cases h
          · rw [hs] at h
            simp only [] at h ⊢
            rcases hw : skipWs r1 with _ | ⟨c2, r2⟩
            · rw [hw] at h
              cases h
            · rw [hw] at h
              simp only [] at h ⊢
              by_cases h2 : c2 = ':'
              · rw [if_pos h2] at h ⊢
                rcases hv : parseValue f (skipWs r2) with _ | ⟨v, r3⟩
                · rw [hv] at h
                  cases h
                · rw [hv] at h
                  rw [ihV _ _ hv]
                  exact h
              · rw [if_neg h2] at h
                cases h
        · rw [if_neg h1] at h
          cases h
    · -- parseMembers
      intro cs acc x h
      simp only [parseMembers] at h ⊢
      rcases hm : parseMember f cs with _ | ⟨kv, r3⟩
      · rw [hm] at h
        cases h
      · rw [hm] at h
        rw [ihM _ _ hm]
        simp only [] at h ⊢
        rcases hw : skipWs r3 with _ | ⟨c2, r4⟩
        · rw [hw] at h
          cases h
        · rw [hw] at h
          simp only [] at h ⊢
          by_cases h2 : c2 = ','
          · rw [if_pos h2] at h ⊢
            exact ihMs _ _ _ h
          · rw [if_neg h2] at h ⊢
            exact h
    · -- parseObjectBody
      intro cs x h
      cases cs with
      | nil => rw [parseObjectBodyNil] at h; cases h
      | cons c rest =>
        simp only [parseObjectBody] at h ⊢
        by_cases h1 : c = '}'
        · rw [if_pos h1] at h ⊢
          exact h
        · rw [if_neg h1] at h ⊢
          exact ihMs _ _ _ h
    · -- parseItems
      intro cs acc x h
      simp only [parseItems] at h ⊢
      rcases hv : parseValue f cs with _ | ⟨v, r⟩
      · rw [hv] at h
        cases h
      · rw [hv] at h
        rw [ihV _ _ hv]
        simp only [] at h ⊢
        rcases hw : skipWs r with _ | ⟨c2, r2⟩
        · rw [hw] at h
          cases h
        · rw [hw] at h
          simp only [] at h ⊢
          by_cases h2 : c2 = ','
          · rw [if_pos h2] at h ⊢
            exact ihI _ _ _ h
          · rw [if_neg h2] at h ⊢
            exact h
    · -- parseArrayBody
      intro cs x h
      cases cs with
      | nil => rw [parseArrayBodyNil] at h; cases h
      | cons c rest =>
        simp only [parseArrayBody] at h ⊢
        by_cases h1 : c = ']'
        · rw [if_pos h1] at h ⊢
          exact h
        · rw [if_neg h1] at h ⊢
          exact ihI _ _ _ h

theorem parseValueMonoLe (f f2 : Nat) (hle : f ≤ f2) (cs : List Char)
    (x : Json × List Char) (h : parseValue f cs = some x) :
    parseValue f2 cs = some x := by
  induction f2 with
  | zero =>
    rw [Nat.le_zero.mp hle] at h
    exact h
  | succ f2 ih =>
    rcases Nat.lt_or_ge f (f2 + 1) with hlt | hge
    · exact (parseMonoAll f2).1 cs x (ih (Nat.lt_succ_iff.mp hlt))
    · rw [Nat.le_antisymm hle hge] at h
      exact h

/-- A successful `parseNumber` always produces a number value. -/
theorem parseNumberIsNum (cs : List Char) (v : Json) (r : List Char)
    (h : parseNumber cs = some (v, r)) : ∃ m e, v = Json.num m e := by
  cases cs with
  | nil =>
    unfold parseNumber at h
    simp [parseIntPart] at h
  | cons c t =>
    unfold parseNumber at h
    simp only [] at h
    by_cases hneg : c = '-'
    · rw [if_pos hneg] at h
      simp only [] at h
      rcases hip : parseIntPart t with _ | ⟨ip, r1⟩ <;> rw [hip] at h
      · cases h
      · simp only [] at h
        rcases hfr : parseFrac r1 with _ | ⟨fv, fd, r2⟩ <;> rw [hfr] at h
        · cases h
        · simp only [] at h
          rcases hex : parseExp r2 with _ | ⟨e0, r3⟩ <;> rw [hex] at h
          · cases h
          · obtain ⟨h1, h2⟩ := Prod.mk.injEq .. |>.mp (Option.some.inj h)
            exact ⟨_, _, h1.symm⟩
    · rw [if_neg hneg] at h
      simp only [] at h
      rcases hip : parseIntPart (c :: t) with _ | ⟨ip, r1⟩ <;> rw [hip] at h
      · cases h
      · simp only [] at h
        rcases hfr : parseFrac r1 with _ | ⟨fv, fd, r2⟩ <;> rw [hfr] at h
        · cases h
        · simp only [] at h
          rcases hex : parseExp r2 with _ | ⟨e0, r3⟩ <;> rw [hex] at h
          · cases h
          · obtain ⟨h1, h2⟩ := Prod.mk.injEq .. |>.mp (Option.some.inj h)
            exact ⟨_, _, h1.symm⟩

/-! ### Append-stability of the mutual JSON parser

Appending extra input after a successfully parsed value does not change
the parse, provided a parsed number value does not sit at the very end
of the input (a number token would otherwise absorb following digits). -/

theorem parseAppendAll (f : Nat) :
    (∀ cs v r ys, parseValue f cs = some (v, r) →
        (∀ m e, v = Json.num m e → r ≠ []) →
        parseValue f (cs ++ ys) = some (v, r ++ ys)) ∧
    (∀ cs kv r ys, parseMember f cs = some (kv, r) →
        (∀ m e, kv.2 = Json.num m e → r ≠ []) →
        parseMember f (cs ++ ys) = some (kv, r ++ ys)) ∧
    (∀ cs acc v r ys, parseMembers f cs acc = some (v, r) →
        parseMembers f (cs ++ ys) acc = some (v, r ++ ys)) ∧
    (∀ cs v r ys, parseObjectBody f cs = some (v, r) →
        parseObjectBody f (cs ++ ys) = some (v, r ++ ys)) ∧
    (∀ cs acc v r ys, parseItems f cs acc = some (v, r) →
        parseItems f (cs ++ ys) acc = some (v, r ++ ys)) ∧
    (∀ cs v r ys, parseArrayBody f cs = some (v, r) →
        parseArrayBody f (cs ++ ys) = some (v, r ++ ys)) := by
  induction f with
  | zero =>
    refine ⟨fun cs v r ys h => ?_, fun cs kv r ys h => ?_, fun cs acc v r ys h => ?_,
      fun cs v r ys h => ?_, fun cs acc v r ys h => ?_, fun cs v r ys h => ?_⟩ <;>
      simp [parseValue, parseMember, parseMembers, parseObjectBody, parseItems,
        parseArrayBody] at h
  | succ f ih =>
    obtain ⟨ihV, ihM, ihMs, ihO, ihI, ihA⟩ := ih
    refine ⟨?_, ?_, ?_, ?_, ?_, ?_⟩
    · -- parseValue
      intro cs v r ys h hnum
      cases cs with
      | nil => rw [parseValueNil] at h; cases h
      | cons c rest =>
        rw [List.cons_append]
        simp only [parseValue] at h ⊢
        by_cases h1 : c = '{'
        · rw [if_pos h1] at h ⊢
          rcases hsw : skipWs rest with _ | ⟨c3, t3⟩
          · rw [hsw, parseObjectBodyNil] at h
            cases h
          · rw [hsw] at h
            rw [skipWsAppendPos rest ys c3 t3 hsw]
            have h2 := ihO (c3 :: t3) v r ys h
            rw [List.cons_append] at h2
            exact h2
        · rw [if_neg h1] at h ⊢
          by_cases h2 : c = '['
          · rw [if_pos h2] at h ⊢
            rcases hsw : skipWs rest with _ | ⟨c3, t3⟩
            · rw [hsw, parseArrayBodyNil] at h
              cases h
            · rw [hsw] at h
              rw [skipWsAppendPos rest ys c3 t3 hsw]
              have h3 := ihA (c3 :: t3) v r ys h
              rw [List.cons_append] at h3
              exact h3
          · rw [if_neg h2] at h ⊢
            by_cases h3 : c = '"'
            · rw [if_pos h3] at h ⊢
              rcases hs : parseStringChars rest with _ | ⟨s1, r1⟩
              · rw [hs] at h
                cases h
              · rw [hs] at h
                obtain ⟨h4, h5⟩ := Prod.mk.injEq .. |>.mp (Option.some.inj h)
                rw [parseStringCharsAppend ys rest s1 r1 hs]
                rw [← h4, ← h5]
                rfl
            · rw [if_neg h3] at h ⊢
              by_cases h4 : c = 't'
              · rw [if_pos h4] at h ⊢
                exact expectLitAppend _ rest _ v r ys h
              · rw [if_neg h4] at h ⊢
                by_cases h5 : c = 'f'
                · rw [if_pos h5] at h ⊢
                  exact expectLitAppend _ rest _ v r ys h
                · rw [if_neg h5] at h ⊢
                  by_cases h6 : c = 'n'
                  · rw [if_pos h6] at h ⊢
                    exact expectLitAppend _ rest _ v r ys h
                  · rw [if_neg h6] at h ⊢
                    by_cases h7 : (c = '-' || isDigitC c) = true
                    · rw [if_pos h7] at h ⊢
                      obtain ⟨m, e, rfl⟩ := parseNumberIsNum _ v r h
                      have hr : r ≠ [] := hnum m e rfl
                      have h8 := parseNumberAppend (c :: rest) ys _ r h hr
                      rw [List.cons_append] at h8
                      exact h8
                    · rw [if_neg h7] at h
                      cases h
    · -- parseMember
      intro cs kv r ys h hnum
      cases cs with
      | nil => rw [parseMemberNil] at h; cases h
      | cons c rest =>
        rw [List.cons_append]
        simp only [parseMember] at h ⊢
        by_cases h1 : c = '"'
        · rw [if_pos h1] at h ⊢
          rcases hs : parseStringChars rest with _ | ⟨key, r1⟩
          · rw [hs] at h
            cases h
          · rw [hs] at h
            rw [parseStringCharsAppend ys rest key r1 hs]
            simp only [] at h ⊢
            rcases hw : skipWs r1 with _ | ⟨c2, r2⟩
            · rw [hw] at h
              cases h
            · rw [hw] at h
              rw [skipWsAppendPos r1 ys c2 r2 hw]
              simp only [] at h ⊢
              by_cases h2 : c2 = ':'
              · rw [if_pos h2] at h ⊢
                rcases hv : parseValue f (skipWs r2) with _ | ⟨v, r3⟩
                · rw [hv] at h
                  cases h
                · rw [hv] at h
                  obtain ⟨h4, h5⟩ := Prod.mk.injEq .. |>.mp (Option.some.inj h)
                  rcases hsw2 : skipWs r2 with _ | ⟨c4, t4⟩
                  · rw [hsw2, parseValueNil] at hv
                    cases hv
                  · rw [hsw2] at hv
                    rw [skipWsAppendPos r2 ys c4 t4 hsw2]
                    have hnum2 : ∀ m e, v = Json.num m e → r3 ≠ [] := by
                      intro m e hve
                      rw [h5]
                      exact hnum m e (by rw [← h4]; exact hve)
                    have h6 := ihV (c4 :: t4) v r3 ys hv hnum2
                    rw [List.cons_append] at h6
                    rw [h6, ← h4, ← h5]
              · rw [if_neg h2] at h
                cases h
        · rw [if_neg h1] at h
          cases h
    · -- parseMembers
      intro cs acc v r ys h
      simp only [parseMembers] at h ⊢
      rcases hm : parseMember f cs with _ | ⟨kv, r3⟩
      · rw [hm] at h
        cases h
      · rw [hm] at h
        simp only [] at h
        rcases hw : skipWs r3 with _ | ⟨c2, r4⟩
        · rw [hw] at h
          cases h
        · rw [hw] at h
          have hr3 : r3 ≠ [] := skipWsNeNilCons r3 c2 r4 hw
          have hm2 := ihM cs kv r3 ys hm (fun _ _ _ => hr3)
          rw [hm2]
          simp only [] at h ⊢
          rw [skipWsAppendPos r3 ys c2 r4 hw]
          simp only [] at h ⊢
          by_cases h2 : c2 = ','
          · rw [if_pos h2] at h ⊢
            rcases hsw4 : skipWs r4 with _ | ⟨c5, t5⟩
            · rw [hsw4, parseMembersNil] at h
              cases h
            · rw [hsw4] at h
              rw [skipWsAppendPos r4 ys c5 t5 hsw4]
              have h3 := ihMs (c5 :: t5) (acc ++ [kv]) v r ys h
              rw [List.cons_append] at h3
              exact h3
          · rw [if_neg h2] at h ⊢
            by_cases h3 : c2 = '}'
            · rw [if_pos h3] at h ⊢
              obtain ⟨h4, h5⟩ := Prod.mk.injEq .. |>.mp (Option.some.inj h)
              rw [← h4, ← h5]
            · rw [if_neg h3] at h
              cases h
    · -- parseObjectBody
      intro cs v r ys h
      cases cs with
      | nil => rw [parseObjectBodyNil] at h; cases h
      | cons c rest =>
        rw [List.cons_append]
        simp only [parseObjectBody] at h ⊢
        by_cases h1 : c = '}'
        · rw [if_pos h1] at h ⊢
          obtain ⟨h4, h5⟩ := Prod.mk.injEq .. |>.mp (Option.some.inj h)
          rw [← h4, ← h5]
        · rw [if_neg h1] at h ⊢
          have h2 := ihMs (c :: rest) [] v r ys h
          rw [List.cons_append] at h2
          exact h2
    · -- parseItems
      intro cs acc v r ys h
      simp only [parseItems] at h ⊢
      rcases hv : parseValue f cs with _ | ⟨v1, r1⟩
      · rw [hv] at h
        cases h
      · rw [hv] at h
        simp only [] at h
        rcases hw : skipWs r1 with _ | ⟨c2, r2⟩
        · rw [hw] at h
          cases h
        · rw [hw] at h
          have hr1 : r1 ≠ [] := skipWsNeNilCons r1 c2 r2 hw
          have hv2 := ihV cs v1 r1 ys hv (fun _ _ _ => hr1)
          rw [hv2]
          simp only [] at h ⊢
          rw [skipWsAppendPos r1 ys c2 r2 hw]
          simp only [] at h ⊢
          by_cases h2 : c2 = ','
          · rw [if_pos h2] at h ⊢
            rcases hsw2 : skipWs r2 with _ | ⟨c5, t5⟩
            · rw [hsw2, parseItemsNil] at h
              cases h
            · rw [hsw2] at h
              rw [skipWsAppendPos r2 ys c5 t5 hsw2]
              have h3 := ihI (c5 :: t5) (acc ++ [v1]) v r ys h
              rw [List.cons_append] at h3
              exact h3
          · rw [if_neg h2] at h ⊢
            by_cases h3 : c2 = ']'
            · rw [if_pos h3] at h ⊢
              obtain ⟨h4, h5⟩ := Prod.mk.injEq .. |>.mp (Option.some.inj h)
              rw [← h4, ← h5]
            · rw [if_neg h3] at h
              cases h
    · -- parseArrayBody
      intro cs v r ys h
      cases cs with
      | nil => rw [parseArrayBodyNil] at h; cases h
      | cons c rest =>
        rw [List.cons_append]
        simp only [parseArrayBody] at h ⊢
        by_cases h1 : c = ']'
        · rw [if_pos h1] at h ⊢
          obtain ⟨h4, h5⟩ := Prod.mk.injEq .. |>.mp (Option.some.inj h)
          rw [← h4, ← h5]
        · rw [if_neg h1] at h ⊢
          have h2 := ihI (c :: rest) [] v r ys h
          rw [List.cons_append] at h2
          exact h2

/-! ### Direct-parse analysis for junk-headed inputs -/

/-- A successful parse whose input starts with anything but `{`, `[` or
`"` consumes only literal or number-token characters, so no `{` of the
input is consumed. -/
theorem parseValueConsumedNoBrace (f : Nat) (cs : List Char) (v : Json) (r : List Char)
    (c : Char) (t : List Char) (hcs : cs = c :: t)
    (h1 : c ≠ '{') (h2 : c ≠ '[') (h3 : c ≠ '"')
    (h : parseValue f cs = some (v, r)) :
    ∃ pre, cs = pre ++ r ∧ '{' ∉ pre := by
  subst hcs
  cases f with
  | zero => rw [parseValue] at h; cases h
  | succ f =>
    simp only [parseValue] at h
    rw [if_neg h1, if_neg h2, if_neg h3] at h
    by_cases h4 : c = 't'
    · rw [if_pos h4] at h
      obtain ⟨-, hsplit⟩ := expectLitSome _ t _ v r h
      refine ⟨c :: ['r', 'u', 'e'], by rw [hsplit]; rfl, ?_⟩
      subst h4
      decide
    · rw [if_neg h4] at h
      by_cases h5 : c = 'f'
      · rw [if_pos h5] at h
        obtain ⟨-, hsplit⟩ := expectLitSome _ t _ v r h
        refine ⟨c :: ['a', 'l', 's', 'e'], by rw [hsplit]; rfl, ?_⟩
        subst h5
        decide
      · rw [if_neg h5] at h
        by_cases h6 : c = 'n'
        · rw [if_pos h6] at h
          obtain ⟨-, hsplit⟩ := expectLitSome _ t _ v r h
          refine ⟨c :: ['u', 'l', 'l'], by rw [hsplit]; rfl, ?_⟩
          subst h6
          decide
        · rw [if_neg h6] at h
          by_cases h7 : (c = '-' || isDigitC c) = true
          · rw [if_pos h7] at h
            obtain ⟨pre, hsplit, hmem⟩ := parseNumberConsumed (c :: t) v r h
            refine ⟨pre, hsplit, ?_⟩
            intro hbr
            have := hmem '{' hbr
            simp [isNumTokChar, isDigitC] at this
          · rw [if_neg h7] at h
            cases h
  
/-- When the first non-whitespace character of the input is not an
object, array or string opener, and a `{` occurs in the input, the
top-level parse fails: either no value parses, or the parsed value
leaves the `{` (hence a non-whitespace character) unconsumed. -/
theorem jsonParseLNoneJunkHead (full : List Char) (c : Char) (t : List Char)
    (hsw : skipWs full = c :: t)
    (h1 : c ≠ '{') (h2 : c ≠ '[') (h3 : c ≠ '"')
    (hbrace : '{' ∈ skipWs full) : jsonParseL full = none := by
  unfold jsonParseL
  rcases hp : parseValue (3 * full.length + 4) (skipWs full) with _ | ⟨v, r⟩
  · rfl
  · obtain ⟨pre, heq, hnb⟩ :=
      parseValueConsumedNoBrace (3 * full.length + 4) (skipWs full) v r c t hsw h1 h2 h3 hp
    have hbr : '{' ∈ r := by
      rw [heq] at hbrace
      rcases List.mem_append.mp hbrace with hx | hx
      · exact absurd hx hnb
      · exact hx
    have hne : skipWs r ≠ [] := skipWsNeNilOfMem r '{' hbr (by decide)
    simp only []
    rw [if_neg hne]

/-! ### Trim and extraction lemmas -/

theorem jsTrimLSplit (p X : List Char) (x0 : Char) (xt : List Char)
    (hX : X = x0 :: xt) (hx0 : isJsWs x0 = false) :
    jsTrimL (p ++ X) = jsTrimL p ++ X := by
  rcases hp : jsTrimL p with _ | ⟨c, t⟩
  · have hall : ∀ c2 ∈ p, isJsWs c2 = true := List.dropWhile_eq_nil_iff.mp hp
    unfold jsTrimL
    rw [dropWhileCharAppendAll isJsWs p X hall, hX, List.dropWhile_cons, hx0]
    simp
  · exact dropWhileCharAppendPos isJsWs p X c t hp

theorem jsTrimRSplit (B : List Char) (c0 : Char) (q : List Char)
    (hc0 : isJsWs c0 = false) :
    jsTrimR ((B ++ [c0]) ++ q) = (B ++ [c0]) ++ jsTrimR q := by
  unfold jsTrimR
  rw [List.reverse_append, List.reverse_append]
  simp only [List.reverse_cons, List.reverse_nil, List.nil_append, List.cons_append]
  rcases hq : q.reverse.dropWhile isJsWs with _ | ⟨c, t⟩
  · have hall : ∀ c2 ∈ q.reverse, isJsWs c2 = true := List.dropWhile_eq_nil_iff.mp hq
    rw [dropWhileCharAppendAll isJsWs q.reverse (c0 :: B.reverse) hall,
      List.dropWhile_cons, hc0]
    simp
  · rw [dropWhileCharAppendPos isJsWs q.reverse (c0 :: B.reverse) c t hq]
    simp

theorem memJsTrimR (q : List Char) (c : Char) (h : c ∈ jsTrimR q) : c ∈ q := by
  unfold jsTrimR at h
  rw [List.mem_reverse] at h
  have := memOfDropWhileChar isJsWs q.reverse c h
  rwa [List.mem_reverse] at this

theorem extractBracesSplit (pT mid qT : List Char) (hp : '{' ∉ pT) (hq : '}' ∉ qT) :
    extractBraces (pT ++ ('{' :: mid ++ ['}']) ++ qT) = some ('{' :: mid ++ ['}']) := by
  unfold extractBraces
  have hall : ∀ c ∈ pT, (c != '{') = true := by
    intro c hc
    simp only [bne_iff_ne, ne_eq]
    intro hh
    exact hp (hh ▸ hc)
  rw [List.append_assoc, dropWhileCharAppendAll _ pT _ hall]
  simp only [List.cons_append, List.dropWhile_cons, bne_self_eq_false,
    Bool.false_eq_true, if_false]
  have hrev : ((mid ++ ['}']) ++ qT).reverse = qT.reverse ++ ('}' :: mid.reverse) := by
    simp
  rw [hrev]
  have hallq : ∀ c ∈ qT.reverse, (c != '}') = true := by
    intro c hc
    simp only [bne_iff_ne, ne_eq]
    intro hh
    subst hh
    exact hq (List.mem_reverse.mp hc)
  rw [dropWhileCharAppendAll _ qT.reverse _ hallq, List.dropWhile_cons]
  simp only [bne_self_eq_false, Bool.false_eq_true, if_false]
  simp

/-- The cleanup step on prose-wrapped object text: with no `{` or
backtick in the leading prose and no `}` in the trailing prose, the
first-`{`-to-last-`}` extraction recovers exactly the object text. -/
theorem cleanJsonTextSplit (p mid q : List Char)
    (hp1 : '{' ∉ p) (hp2 : '`' ∉ p) (hq1 : '}' ∉ q) :
    cleanJsonText (String.mk (p ++ ('{' :: mid ++ ['}']) ++ q)) =
      String.mk ('{' :: mid ++ ['}']) := by
  unfold cleanJsonText jsTrim
  simp only [List.append_assoc, List.cons_append, List.nil_append]
  have htriml := jsTrimLSplit p ('{' :: (mid ++ '}' :: q)) '{' (mid ++ '}' :: q) rfl (by decide)
  have htoList : (String.mk (p ++ '{' :: (mid ++ '}' :: q))).toList =
      p ++ '{' :: (mid ++ '}' :: q) := rfl
  rw [htoList, htriml]
  have htrimr := jsTrimRSplit (jsTrimL p ++ ('{' :: mid)) '}' q (by decide)
  simp only [List.append_assoc, List.cons_append, List.nil_append] at htrimr
  rw [htrimr]
  have hpT1 : '{' ∉ jsTrimL p := fun hx => hp1 (memOfDropWhileChar isJsWs p '{' hx)
  have hqT1 : '}' ∉ jsTrimR q := fun hx => hq1 (memJsTrimR q '}' hx)
  have hnofence : ∀ mr : List Char,
      litPrefix ('`' :: mr) (jsTrimL p ++ '{' :: (mid ++ '}' :: jsTrimR q)) = false := by
    intro mr
    rcases hpT : jsTrimL p with _ | ⟨c, t⟩
    · simp only [List.nil_append]
      exact litPrefixHeadNe '`' mr '{' _ (by decide)
    · have hc : c ∈ jsTrimL p := by rw [hpT]; simp
      have hcp : c ∈ p := memOfDropWhileChar isJsWs p c hc
      simp only [List.cons_append]
      exact litPrefixHeadNe '`' mr c _ (fun hh => hp2 (hh ▸ hcp))
  have hfj : litPrefix fenceJson (jsTrimL p ++ '{' :: (mid ++ '}' :: jsTrimR q)) = false :=
    hnofence ['`', '`', 'j', 's', 'o', 'n']
  have hft : litPrefix fenceTicks (jsTrimL p ++ '{' :: (mid ++ '}' :: jsTrimR q)) = false :=
    hnofence ['`', '`']
  rw [hfj, hft]
  simp only [Bool.false_eq_true, if_false]
  have hext := extractBracesSplit (jsTrimL p) mid (jsTrimR q) hpT1 hqT1
  simp only [List.append_assoc, List.cons_append, List.nil_append] at hext
  rw [hext]

/-- Direct parse of an object text preceded only by whitespace: succeeds
with the object when the trailing text is whitespace, otherwise fails. -/
theorem jsonParseLWsPrefix (p mid q : List Char) (fs : List (String × Json))
    (hp : skipWs p = [])
    (hs : jsonParseL ('{' :: mid ++ ['}']) = some (Json.obj fs)) :
    jsonParseL ((p ++ ('{' :: mid ++ ['}'])) ++ q) =
      (if skipWs q = [] then some (Json.obj fs) else none) := by
  unfold jsonParseL at hs ⊢
  have hsw : skipWs ('{' :: mid ++ ['}']) = '{' :: mid ++ ['}'] :=
    skipWsConsNotWs '{' _ (by decide)
  rw [hsw] at hs
  rcases hp1 : parseValue (3 * ('{' :: mid ++ ['}']).length + 4) ('{' :: mid ++ ['}'])
    with _ | ⟨v, rest⟩
  · rw [hp1] at hs
    cases hs
  · rw [hp1] at hs
    simp only [] at hs
    by_cases hrest : skipWs rest = []
    · rw [if_pos hrest] at hs
      have hv : v = Json.obj fs := Option.some.inj hs
      subst hv
      have hswfull : skipWs ((p ++ ('{' :: mid ++ ['}'])) ++ q) =
          ('{' :: mid ++ ['}']) ++ q := by
        rw [List.append_assoc, skipWsAppendNil p _ hp, List.cons_append]
        exact skipWsConsNotWs '{' _ (by decide)
      rw [hswfull]
      have hext := (parseAppendAll (3 * ('{' :: mid ++ ['}']).length + 4)).1
        ('{' :: mid ++ ['}']) (Json.obj fs) rest q hp1 (fun m e hh => by cases hh)
      have hlen : 3 * ('{' :: mid ++ ['}']).length + 4 ≤
          3 * ((p ++ ('{' :: mid ++ ['}'])) ++ q).length + 4 := by
        simp only [List.length_append]
        omega
      have hmono := parseValueMonoLe _ _ hlen _ _ hext
      rw [hmono]
      simp only []
      rw [skipWsAppendNil rest q hrest]
    · rw [if_neg hrest] at hs
      cases hs

/-- The normalizer on an object surrounded by structural-character-free
prose recovers the object (prose-wrapped case of the amended C4). -/
theorem parseAIResponseProse (p mid q : List Char) (fs : List (String × Json))
    (hs : jsonParseL ('{' :: mid ++ ['}']) = some (Json.obj fs))
    (hp : ∀ c ∈ p, c ≠ '{' ∧ c ≠ '}' ∧ c ≠ '[' ∧ c ≠ ']' ∧ c ≠ '"' ∧ c ≠ '`')
    (hq : ∀ c ∈ q, c ≠ '{' ∧ c ≠ '}' ∧ c ≠ '[' ∧ c ≠ ']' ∧ c ≠ '"' ∧ c ≠ '`') :
    parseAIResponse (String.mk (p ++ ('{' :: mid ++ ['}']) ++ q)) = Json.obj fs := by
  have hp1 : '{' ∉ p := fun hx => (hp '{' hx).1 rfl
  have hp2 : '`' ∉ p := fun hx => (hp '`' hx).2.2.2.2.2 rfl
  have hq1 : '}' ∉ q := fun hx => (hq '}' hx).2.1 rfl
  have hclean : jsonParse (cleanJsonText (String.mk (p ++ ('{' :: mid ++ ['}']) ++ q))) =
      some (Json.obj fs) := by
    rw [cleanJsonTextSplit p mid q hp1 hp2 hq1]
    exact hs
  unfold parseAIResponse parseStages jsonParse
  have htl : (String.mk (p ++ ('{' :: mid ++ ['}']) ++ q)).toList =
      (p ++ ('{' :: mid ++ ['}'])) ++ q := rfl
  rw [htl]
  rcases hsp : skipWs p with _ | ⟨c, t⟩
  · -- only whitespace before the object: the direct parse may already succeed
    rw [jsonParseLWsPrefix p mid q fs hsp hs]
    by_cases hq0 : skipWs q = []
    · rw [if_pos hq0]
      rfl
    · rw [if_neg hq0]
      simp only []
      unfold jsonParse at hclean
      rw [hclean]
      rfl
  · -- a non-whitespace character precedes the object: the direct parse fails
    have hmem : c ∈ skipWs p := by rw [hsp]; simp
    have hcp : c ∈ p := memOfDropWhileChar isJsonWs p c hmem
    obtain ⟨hc1, hc2, hc3, hc4, hc5, hc6⟩ := hp c hcp
    have hswfull : skipWs ((p ++ ('{' :: mid ++ ['}'])) ++ q) =
        c :: (t ++ (('{' :: mid ++ ['}']) ++ q)) := by
      rw [List.append_assoc]
      exact skipWsAppendPos p _ c t hsp
    have hbrace : '{' ∈ skipWs ((p ++ ('{' :: mid ++ ['}'])) ++ q) := by
      rw [hswfull]
      simp
    have hnone := jsonParseLNoneJunkHead _ c _ hswfull hc1 hc3 hc5 hbrace
    rw [hnone]
    simp only []
    unfold jsonParse at hclean
    rw [hclean]
    rfl

/-! ### Fence-stripping lemmas -/

theorem litPrefixFenceJsonFalse (c : Char) (t : List Char) (h : c ≠ '`') :
    litPrefix fenceJson (c :: t) = false :=
  litPrefixHeadNe '`' ['`', '`', 'j', 's', 'o', 'n'] c t h

theorem litPrefixFenceTicksFalse (c : Char) (t : List Char) (h : c ≠ '`') :
    litPrefix fenceTicks (c :: t) = false :=
  litPrefixHeadNe '`' ['`', '`'] c t h

theorem scanNilMarker (m0 : Char) (mr : List Char) (f : Nat) :
    stripFencesAux (m0 :: mr) f [] = [] := by
  cases f <;> simp [stripFencesAux, litPrefix]

theorem scanTailJson (n : Nat) :
    stripFencesAux fenceJson (n + 1) ('\n' :: fenceTicks) = [] := by
  simp only [stripFencesAux]
  rw [litPrefixFenceJsonFalse '\n' _ (by decide), litPrefixFenceTicksFalse '\n' _ (by decide)]
  simp only [Bool.false_eq_true, if_false]
  have hdw : fenceTicks.dropWhile isJsWs = fenceTicks := by decide
  rw [hdw]
  have : (isJsWs '\n' && litPrefix fenceTicks fenceTicks) = true := by decide
  rw [this]
  simp only [if_true]
  have hdrop : fenceTicks.drop 3 = [] := by decide
  rw [hdrop]
  exact scanNilMarker '`' _ n

theorem stripScanEmit (B : List Char) (c0 : Char) :
    ∀ f : Nat, (B ++ [c0]).length + 4 ≤ f →
    (∀ c ∈ B ++ [c0], c ≠ '`') → isJsWs c0 = false →
    stripFencesAux fenceJson f ((B ++ [c0]) ++ ('\n' :: fenceTicks)) = B ++ [c0] := by
  induction B with
  | nil =>
    intro f hf hbt hws
    have hc0 : c0 ≠ '`' := hbt c0 (by simp)
    obtain ⟨f1, rfl⟩ : ∃ f1, f = f1 + 1 := by
      cases f with
      | zero => omega
      | succ f1 => exact ⟨f1, rfl⟩
    simp only [List.nil_append, List.cons_append]
    simp only [stripFencesAux]
    rw [litPrefixFenceJsonFalse c0 _ hc0, litPrefixFenceTicksFalse c0 _ hc0]
    simp only [Bool.false_eq_true, if_false]
    rw [hws]
    simp only [Bool.false_and, Bool.false_eq_true, if_false]
    obtain ⟨f2, rfl⟩ : ∃ f2, f1 = f2 + 1 := by
      cases f1 with
      | zero => simp at hf
      | succ f2 => exact ⟨f2, rfl⟩
    rw [scanTailJson f2]
  | cons b B2 ih =>
    intro f hf hbt hws
    have hb : b ≠ '`' := hbt b (by simp)
    obtain ⟨f1, rfl⟩ : ∃ f1, f = f1 + 1 := by
      cases f with
      | zero => simp at hf
      | succ f1 => exact ⟨f1, rfl⟩
    simp only [List.cons_append]
    simp only [stripFencesAux]
    rw [litPrefixFenceJsonFalse b _ hb, litPrefixFenceTicksFalse b _ hb]
    simp only [Bool.false_eq_true, if_false]
    have hcond : (isJsWs b &&
        litPrefix fenceTicks (((B2 ++ [c0]) ++ ('\n' :: fenceTicks)).dropWhile isJsWs)) = false := by
      by_cases hwb : isJsWs b = true
      · have hne : (B2 ++ [c0]).dropWhile isJsWs ≠ [] := by
          intro hnil
          have := List.dropWhile_eq_nil_iff.mp hnil c0 (by simp)
          rw [hws] at this
          cases this
        obtain ⟨d, t2, hdt⟩ := List.exists_cons_of_ne_nil hne
        rw [dropWhileCharAppendPos isJsWs (B2 ++ [c0]) ('\n' :: fenceTicks) d t2 hdt]
        have hd : d ∈ B2 ++ [c0] := memOfDropWhileChar isJsWs _ d (by rw [hdt]; simp)
        have hdne : d ≠ '`' := hbt d (by
          rcases List.mem_append.mp hd with hx | hx
          · exact List.mem_cons_of_mem b (List.mem_append_left _ hx)
          · exact List.mem_cons_of_mem b (List.mem_append_right _ hx))
        rw [litPrefixFenceTicksFalse d _ hdne]
        simp
      · have hbf : isJsWs b = false := by
          revert hwb
          cases isJsWs b <;> simp
        rw [hbf]
        simp
    rw [hcond]
    simp only [Bool.false_eq_true, if_false]
    have hih := ih f1 (by simp at hf ⊢; omega)
      (fun c hc => hbt c (List.mem_cons_of_mem b hc)) hws
    rw [hih]

theorem jsTrimLConsNotWs (c : Char) (t : List Char) (h : isJsWs c = false) :
    jsTrimL (c :: t) = c :: t := by
  simp [jsTrimL, List.dropWhile_cons, h]

theorem stripFencesAuxSucc (marker : List Char) (f : Nat) (cs : List Char) :
    stripFencesAux marker (f + 1) cs =
      if litPrefix marker cs = true then
        stripFencesAux marker f ((cs.drop marker.length).dropWhile isJsWs)
      else if litPrefix fenceTicks cs = true then
        stripFencesAux marker f (cs.drop 3)
      else
        match cs with
        | [] => []
        | c :: rest =>
          if isJsWs c && litPrefix fenceTicks (rest.dropWhile isJsWs) then
            stripFencesAux marker f ((rest.dropWhile isJsWs).drop 3)
          else c :: stripFencesAux marker f rest := rfl

/-- The cleanup step on a ```json-fenced object text: the global
replacement removes exactly the fence markers, and the extraction then
returns the object text unchanged. -/
theorem cleanJsonTextFenced (mid : List Char) (hmid : ∀ c ∈ mid, c ≠ '`') :
    cleanJsonText (String.mk
      (fenceJson ++ '\n' :: (('{' :: mid ++ ['}']) ++ ('\n' :: fenceTicks)))) =
      String.mk ('{' :: mid ++ ['}']) := by
  unfold cleanJsonText
  have htl : (String.mk (fenceJson ++ '\n' :: (('{' :: mid ++ ['}']) ++ ('\n' :: fenceTicks)))).toList =
      fenceJson ++ '\n' :: (('{' :: mid ++ ['}']) ++ ('\n' :: fenceTicks)) := rfl
  rw [htl]
  have htrimL : jsTrimL (fenceJson ++ '\n' :: (('{' :: mid ++ ['}']) ++ ('\n' :: fenceTicks))) =
      fenceJson ++ '\n' :: (('{' :: mid ++ ['}']) ++ ('\n' :: fenceTicks)) :=
    jsTrimLConsNotWs '`' _ (by decide)
  have hshape : fenceJson ++ '\n' :: (('{' :: mid ++ ['}']) ++ ('\n' :: fenceTicks)) =
      ((fenceJson ++ '\n' :: (('{' :: mid ++ ['}']) ++ ['\n', '`', '`'])) ++ ['`']) ++ [] := by
    simp [fenceJson, fenceTicks]
  have htrimR : jsTrimR (fenceJson ++ '\n' :: (('{' :: mid ++ ['}']) ++ ('\n' :: fenceTicks))) =
      fenceJson ++ '\n' :: (('{' :: mid ++ ['}']) ++ ('\n' :: fenceTicks)) := by
    rw [hshape, jsTrimRSplit _ '`' [] (by decide)]
    have : jsTrimR ([] : List Char) = [] := rfl
    rw [this]
  unfold jsTrim
  rw [htrimL, htrimR]
  simp only []
  have hpref : litPrefix fenceJson
      (fenceJson ++ '\n' :: (('{' :: mid ++ ['}']) ++ ('\n' :: fenceTicks))) = true :=
    (litPrefixIff _ _).mpr ⟨_, rfl⟩
  rw [hpref]
  simp only [if_true]
  have hlen : (fenceJson ++ '\n' :: (('{' :: mid ++ ['}']) ++ ('\n' :: fenceTicks))).length =
      (mid.length + 13) + 1 := by
    simp [fenceJson, fenceTicks]
  rw [hlen, stripFencesAuxSucc]
  rw [hpref]
  simp only [if_true]
  have hdrop : ((fenceJson ++ '\n' :: (('{' :: mid ++ ['}']) ++ ('\n' :: fenceTicks))).drop
      fenceJson.length).dropWhile isJsWs = ('{' :: mid ++ ['}']) ++ ('\n' :: fenceTicks) := by
    rw [show fenceJson.length = 7 from rfl]
    have hdrop7 : (fenceJson ++ '\n' :: (('{' :: mid ++ ['}']) ++ ('\n' :: fenceTicks))).drop 7 =
        '\n' :: (('{' :: mid ++ ['}']) ++ ('\n' :: fenceTicks)) := rfl
    rw [hdrop7, List.dropWhile_cons]
    simp only [show isJsWs '\n' = true from rfl, if_true, List.cons_append, List.dropWhile_cons,
      show isJsWs '{' = false from rfl, Bool.false_eq_true, if_false]
  rw [hdrop]
  have hscan := stripScanEmit ('{' :: mid) '}' (mid.length + 13)
    (by simp)
    (by
      intro c hc
      rcases List.mem_cons.mp hc with rfl | hc2
      · decide
      · rcases List.mem_append.mp hc2 with hx | hx
        · exact hmid c hx
        · rcases List.mem_cons.mp hx with rfl | hx2
          · decide
          · cases hx2)
    (by decide)
  rw [hscan]
  have hext := extractBracesSplit [] mid [] (by simp) (by simp)
  simp only [List.nil_append, List.append_nil] at hext
  rw [hext]

/-- The normalizer on a ```json-fenced object text recovers the object
(fenced case of the amended C4). -/
theorem parseAIResponseFenced (mid : List Char) (fs : List (String × Json))
    (hs : jsonParseL ('{' :: mid ++ ['}']) = some (Json.obj fs))
    (hmid : ∀ c ∈ mid, c ≠ '`') :
    parseAIResponse (String.mk
      (fenceJson ++ '\n' :: (('{' :: mid ++ ['}']) ++ ('\n' :: fenceTicks)))) =
      Json.obj fs := by
  have hclean := cleanJsonTextFenced mid hmid
  unfold parseAIResponse parseStages jsonParse
  have htl : (String.mk (fenceJson ++ '\n' :: (('{' :: mid ++ ['}']) ++ ('\n' :: fenceTicks)))).toList =
      fenceJson ++ '\n' :: (('{' :: mid ++ ['}']) ++ ('\n' :: fenceTicks)) := rfl
  rw [htl]
  have hsw : skipWs (fenceJson ++ '\n' :: (('{' :: mid ++ ['}']) ++ ('\n' :: fenceTicks))) =
      fenceJson ++ '\n' :: (('{' :: mid ++ ['}']) ++ ('\n' :: fenceTicks)) :=
    skipWsConsNotWs '`' _ (by decide)
  have hbrace : '{' ∈ skipWs (fenceJson ++ '\n' :: (('{' :: mid ++ ['}']) ++ ('\n' :: fenceTicks))) := by
    rw [hsw]
    simp [fenceJson]
  have hnone := jsonParseLNoneJunkHead _ '`' _ hsw (by decide) (by decide) (by decide) hbrace
  rw [hnone]
  simp only []
  unfold jsonParse at hclean
  rw [hclean]
  exact congrArg (fun o => o.getD fallbackProblem) hs

/-- C4 (counterexample): the claim fails as stated.  The first text
contains a valid JSON object of the expected shape surrounded by extra
prose, but the prose contains a stray `{`, so the first-`{`-to-last-`}`
extraction grabs an unparseable span and the normalizer falls back to
the default problem instead of the contained object.  A `[`/`]` pair
around the object makes the direct parse return an array rather than
the object, and a stray `}` after the object corrupts the extracted
span as well. -/
theorem claim_C4_counterexample_extraction :
    jsonParse "\x7b\"problem_text\":\"Two birds.\",\"final_answer\":2\x7d" =
      some (Json.obj [("problem_text", Json.str "Two birds."), ("final_answer", Json.num 2 0)]) ∧
    parseAIResponse ("Note \x7b see: " ++ "\x7b\"problem_text\":\"Two birds.\",\"final_answer\":2\x7d") =
      fallbackProblem ∧
    fallbackProblem ≠
      Json.obj [("problem_text", Json.str "Two birds."), ("final_answer", Json.num 2 0)] ∧
    parseAIResponse ("[" ++ "\x7b\"problem_text\":\"Two birds.\",\"final_answer\":2\x7d" ++ "]") =
      Json.arr [Json.obj [("problem_text", Json.str "Two birds."), ("final_answer", Json.num 2 0)]] ∧
    parseAIResponse ("\x7b\"problem_text\":\"Two birds.\",\"final_answer\":2\x7d" ++ " \x7d") =
      fallbackProblem := by
  refine ⟨rfl, rfl, ?_, rfl, rfl⟩
  simp [fallbackProblem]

/-- C4 (amended): for every raw text consisting of a valid JSON object
of the expected shape that is either (a) surrounded by extra prose
containing none of the characters `{`, `}`, `[`, `]`, `"` and backtick,
or (b) wrapped in a ```json markdown code fence with the object itself
containing no backtick, the normalizer extracts that object and parses
it correctly, returning its `problem_text` and `final_answer` rather
than the fallback. -/
theorem claim_C4_amended_normalizer_extraction :
    (∀ (p mid q : List Char) (fs : List (String × Json)) (pt : String) (m e : Int),
      jsonParseL ('{' :: mid ++ ['}']) = some (Json.obj fs) →
      jsGet (Json.obj fs) "problem_text" = some (Json.str pt) →
      jsGet (Json.obj fs) "final_answer" = some (Json.num m e) →
      (∀ c ∈ p, c ≠ '{' ∧ c ≠ '}' ∧ c ≠ '[' ∧ c ≠ ']' ∧ c ≠ '"' ∧ c ≠ '`') →
      (∀ c ∈ q, c ≠ '{' ∧ c ≠ '}' ∧ c ≠ '[' ∧ c ≠ ']' ∧ c ≠ '"' ∧ c ≠ '`') →
      parseAIResponse (String.mk (p ++ ('{' :: mid ++ ['}']) ++ q)) = Json.obj fs) ∧
    (∀ (mid : List Char) (fs : List (String × Json)) (pt : String) (m e : Int),
      jsonParseL ('{' :: mid ++ ['}']) = some (Json.obj fs) →
      jsGet (Json.obj fs) "problem_text" = some (Json.str pt) →
      jsGet (Json.obj fs) "final_answer" = some (Json.num m e) →
      (∀ c ∈ mid, c ≠ '`') →
      parseAIResponse (String.mk
        (fenceJson ++ '\n' :: (('{' :: mid ++ ['}']) ++ ('\n' :: fenceTicks)))) =
        Json.obj fs) := by
  constructor
  · intro p mid q fs pt m e hs hpt hans hp hq
    exact parseAIResponseProse p mid q fs hs hp hq
  · intro mid fs pt m e hs hpt hans hmid
    exact parseAIResponseFenced mid fs hs hmid

/-- Witness for the amended C4 at a concrete prose-wrapped text and a
concrete fenced text. -/
theorem claim_C4_amended_normalizer_extraction_witness :
    parseAIResponse (String.mk (("Answer: ").toList ++
        ('{' :: ("\"problem_text\":\"Two birds.\",\"final_answer\":2").toList ++ ['}']) ++
        (" Enjoy.").toList)) =
      Json.obj [("problem_text", Json.str "Two birds."), ("final_answer", Json.num 2 0)] ∧
    parseAIResponse (String.mk (fenceJson ++ '\n' ::
        (('{' :: ("\"problem_text\":\"Two birds.\",\"final_answer\":2").toList ++ ['}']) ++
          ('\n' :: fenceTicks)))) =
      Json.obj [("problem_text", Json.str "Two birds."), ("final_answer", Json.num 2 0)] :=
  ⟨claim_C4_amended_normalizer_extraction.1 ("Answer: ").toList _ (" Enjoy.").toList
      _ "Two birds." 2 0 rfl rfl rfl (by decide) (by decide),
   claim_C4_amended_normalizer_extraction.2 _ _ "Two birds." 2 0 rfl rfl rfl (by decide)⟩
